import Mathlib

/-!
Shallow embedding of the transactional core of the orange-city-mart backend
(Go, `backend/handlers/auction.go` and the wallet handlers), over an explicit
ledger state.  Monetary amounts (NUMERIC(12,2) in the schema) are modelled as
integers; wall-clock instants as integers passed explicitly (the Go code calls
`time.Now()` inside the transaction).  Each HTTP handler becomes a function
`State → ... → Result × State`: every early-return error path of the Go code
returns the original state (the deferred `tx.Rollback`), and only the branch
that reaches `tx.Commit` returns the mutated state.

SQL semantics used throughout: `QueryRow ... WHERE id = $1` is `List.find?`
(first matching row); `UPDATE ... WHERE <pred>` is `List.map` applied to every
matching row; `INSERT` appends.
-/

namespace OrangeCityMart

/-- The `bid_holds.status` check constraint: SOFT, HARD, RELEASED, SETTLED. -/
inductive HoldStatus
  | soft
  | hard
  | released
  | settled
deriving DecidableEq, Repr

/-- The `auctions.status` column: ACTIVE, ENDED, CANCELLED. -/
inductive AuctionStatus
  | active
  | ended
  | cancelled
deriving DecidableEq, Repr

/-- The `transactions.type` column: DEPOSIT, WITHDRAW, BID_HOLD, REFUND, TRANSFER. -/
inductive TxKind
  | deposit
  | withdraw
  | bidHold
  | refund
  | transfer
deriving DecidableEq, Repr

/-- The `transactions.status` column: PENDING, COMPLETED, FAILED. -/
inductive TxStatus
  | pending
  | completed
  | failed
deriving DecidableEq, Repr

/-- The `settlements.status` column: PENDING, COMPLETED. -/
inductive SettlementStatus
  | pending
  | completed
deriving DecidableEq, Repr

/-- A row of `users` (the columns the core touches). -/
structure User where
  id : String
  balance : Int
deriving DecidableEq, Repr

/-- A row of `auctions`, with the seller id of the referenced product flattened
in (the handlers always reach the seller through the 1:1 `products` join). -/
structure Auction where
  id : String
  sellerId : String
  currentHighBid : Int
  highestBidderId : Option String
  status : AuctionStatus
  endTime : Int
deriving DecidableEq, Repr

/-- A row of `bid_holds`. -/
structure Hold where
  auctionId : String
  userId : String
  amount : Int
  status : HoldStatus
deriving DecidableEq, Repr

/-- A row of `transactions` (the journal). -/
structure TxEntry where
  userId : String
  amount : Int
  kind : TxKind
  status : TxStatus
  reference : Option String
deriving DecidableEq, Repr

/-- A row of `settlements`. -/
structure Settlement where
  auctionId : String
  winnerId : String
  sellerId : String
  amount : Int
  winnerApprovedAt : Option Int
  sellerApprovedAt : Option Int
  status : SettlementStatus
deriving DecidableEq, Repr

/-- A row of `bids` (append-only history). -/
structure Bid where
  auctionId : String
  userId : String
  amount : Int
deriving DecidableEq, Repr

/-- The durable ledger state: one list per table, rows in insertion order. -/
structure State where
  users : List User
  auctions : List Auction
  holds : List Hold
  journal : List TxEntry
  settlements : List Settlement
  bids : List Bid
deriving DecidableEq, Repr

/-- Row lookup `SELECT ... FROM users WHERE id = $1` (first matching row). -/
def findUser (s : State) (uid : String) : Option User :=
  s.users.find? (fun u => u.id == uid)

/-- Row lookup `SELECT ... FROM auctions WHERE id = $1` (first matching row). -/
def findAuction (s : State) (aid : String) : Option Auction :=
  s.auctions.find? (fun a => a.id == aid)

/-- Row lookup `SELECT ... FROM settlements WHERE auction_id = $1` (first matching row). -/
def findSettlement (s : State) (aid : String) : Option Settlement :=
  s.settlements.find? (fun st => st.auctionId == aid)

/-- The statement `UPDATE users SET wallet_balance = wallet_balance + $1 WHERE id = $2`. -/
def creditUser (users : List User) (uid : String) (amt : Int) : List User :=
  users.map (fun u => if u.id == uid then { u with balance := u.balance + amt } else u)

/-- The statement `UPDATE users SET wallet_balance = wallet_balance - $1 WHERE id = $2`. -/
def debitUser (users : List User) (uid : String) (amt : Int) : List User :=
  users.map (fun u => if u.id == uid then { u with balance := u.balance - amt } else u)

/-- The `UPDATE settlements ... WHERE id = $1` statements: the handler looked
the row up by `auction_id` and keeps its primary key, so the update hits
exactly the first row matching the auction id. -/
def updateFirstSettlement (l : List Settlement) (aid : String)
    (f : Settlement → Settlement) : List Settlement :=
  match l with
  | [] => []
  | st :: rest =>
      if st.auctionId == aid then f st :: rest
      else st :: updateFirstSettlement rest aid f

/-- Outcome of `PlaceBid`, one constructor per `http.Error` exit plus the
200 body (`new_high_bid`). -/
inductive BidResult
  | success (newHighBid : Int)
  | invalid
  | notFound
  | userNotFound
  | closed
  | tooLow
  | insufficientFunds
deriving DecidableEq, Repr

/-- The HTTP status each `PlaceBid` outcome is written with in the handler. -/
def bidHttpStatus : BidResult → Nat
  | .success _ => 200
  | .invalid => 400
  | .notFound => 404
  | .userNotFound => 404
  | .closed => 409
  | .tooLow => 409
  | .insufficientFunds => 402

/-- The statement `UPDATE bid_holds SET status = 'RELEASED' WHERE auction_id = $1 AND
user_id = $2 AND status = 'SOFT'` (every matching row; the handler discards the
affected-row count). -/
def releasePrevHolds (holds : List Hold) (aid prev : String) : List Hold :=
  holds.map (fun h =>
    if h.auctionId == aid && h.userId == prev && h.status == .soft then
      { h with status := .released }
    else h)

/-- Handler `AuctionHandler.PlaceBid` (auction.go).  `now` is the value of
`time.Now()` at the closed-check; `time.Now().After(endTime)` is the strict
comparison `endTime < now`. -/
def placeBid (s : State) (now : Int) (userId auctionId : String) (amount : Int) :
    BidResult × State :=
  if amount ≤ 0 then (.invalid, s)
  else
    match findAuction s auctionId with
    | none => (.notFound, s)
    | some a =>
      if a.status ≠ .active ∨ a.endTime < now then (.closed, s)
      else if amount ≤ a.currentHighBid then (.tooLow, s)
      else
        match findUser s userId with
        | none => (.userNotFound, s)
        | some u =>
          if u.balance < amount then (.insufficientFunds, s)
          else
            -- Release previous highest bidder's soft hold (skipped when the
            -- caller is already the highest bidder).
            let s1 : State :=
              match a.highestBidderId with
              | some prev =>
                if prev ≠ userId then
                  { s with
                    holds := releasePrevHolds s.holds auctionId prev,
                    users := creditUser s.users prev a.currentHighBid,
                    journal := s.journal ++
                      [⟨prev, a.currentHighBid, .refund, .completed, some auctionId⟩] }
                else s
              | none => s
            -- Deduct from the new bidder, journal the hold, insert the SOFT
            -- hold, advance the auction, record the raw bid, commit.
            let s2 : State :=
              { s1 with
                users := debitUser s1.users userId amount,
                journal := s1.journal ++
                  [⟨userId, amount, .bidHold, .completed, some auctionId⟩],
                holds := s1.holds ++ [⟨auctionId, userId, amount, .soft⟩] }
            let s3 : State :=
              { s2 with
                auctions := s2.auctions.map (fun x =>
                  if x.id == auctionId then
                    { x with currentHighBid := amount, highestBidderId := some userId }
                  else x),
                bids := s2.bids ++ [⟨auctionId, userId, amount⟩] }
            (.success amount, s3)

/-- Outcome of `endAuctionIfExpired`: query error (no such auction), the
early `return nil` when nothing is to do, or the committed transition. -/
inductive FinalizeResult
  | notFound
  | noop
  | ended
deriving DecidableEq, Repr

/-- Snapshot `SELECT id, user_id, amount FROM bid_holds WHERE auction_id = $1 AND
status = 'SOFT' AND user_id != $2` snapshot, in row order. -/
def otherSoftHolds (holds : List Hold) (aid winner : String) : List Hold :=
  holds.filter (fun h =>
    h.auctionId == aid && h.status == .soft && h.userId != winner)

/-- Function `endAuctionIfExpired` (auction.go).  The per-row release loop (each
selected row updated by primary key, wallet credited, REFUND journalled) is
modelled by one map over the matching rows plus per-row credits and journal
entries in the selection order. -/
def endAuctionIfExpired (s : State) (now : Int) (auctionId : String) :
    FinalizeResult × State :=
  match findAuction s auctionId with
  | none => (.notFound, s)
  | some a =>
    if a.status ≠ .active ∨ ¬ a.endTime < now then (.noop, s)
    else
      let s1 : State :=
        { s with
          auctions := s.auctions.map (fun x =>
            if x.id == auctionId then { x with status := .ended } else x) }
      match a.highestBidderId with
      | none => (.ended, s1)
      | some winner =>
        let s2 : State :=
          { s1 with
            holds := s1.holds.map (fun h =>
              if h.auctionId == auctionId && h.userId == winner && h.status == .soft then
                { h with status := .hard }
              else h) }
        let others := otherSoftHolds s2.holds auctionId winner
        let s3 : State :=
          { s2 with
            holds := s2.holds.map (fun h =>
              if h.auctionId == auctionId && h.status == .soft && h.userId != winner then
                { h with status := .released }
              else h),
            users := others.foldl (fun us h => creditUser us h.userId h.amount) s2.users,
            journal := s2.journal ++
              others.map (fun h =>
                (⟨h.userId, h.amount, .refund, .completed, some auctionId⟩ : TxEntry)) }
        let s4 : State :=
          if s3.settlements.any (fun st => st.auctionId == auctionId) then s3
          else
            { s3 with
              settlements := s3.settlements ++
                [⟨auctionId, winner, a.sellerId, a.currentHighBid, none, none, .pending⟩] }
        (.ended, s4)

/-- Outcome of `ApproveSettlement`, one constructor per handler exit. -/
inductive ApproveResult
  | notFound
  | alreadyCompleted
  | alreadyApproved
  | forbidden
  | ok (bothApproved : Bool) (settlementStatus : SettlementStatus)
deriving DecidableEq, Repr

/-- The block of `ApproveSettlement` after the caller's approval is stamped:
when both approvals are present, mark COMPLETED, settle the winner's HARD
hold, credit the seller, journal the two TRANSFER entries. -/
def settleIfBothApproved (s1 : State) (st : Settlement) (auctionId : String)
    (both : Bool) : ApproveResult × State :=
  if both then
    let s2 : State :=
      { s1 with
        settlements := updateFirstSettlement s1.settlements auctionId
          (fun x => { x with status := .completed }),
        holds := s1.holds.map (fun h =>
          if h.auctionId == auctionId && h.userId == st.winnerId && h.status == .hard then
            { h with status := .settled }
          else h),
        users := creditUser s1.users st.sellerId st.amount,
        journal := s1.journal ++
          [⟨st.winnerId, st.amount, .transfer, .completed, some auctionId⟩,
           ⟨st.sellerId, st.amount, .transfer, .completed, some auctionId⟩] }
    (.ok true .completed, s2)
  else (.ok false .pending, s1)

/-- Handler `AuctionHandler.ApproveSettlement` (auction.go).  The Go `switch` matches
the winner arm first, so a caller equal to both parties is treated as the
winner. -/
def approveSettlement (s : State) (now : Int) (callerId auctionId : String) :
    ApproveResult × State :=
  match findSettlement s auctionId with
  | none => (.notFound, s)
  | some st =>
    if st.status = .completed then (.alreadyCompleted, s)
    else if callerId = st.winnerId then
      if st.winnerApprovedAt ≠ none then (.alreadyApproved, s)
      else
        let s1 : State :=
          { s with
            settlements := updateFirstSettlement s.settlements auctionId
              (fun x => { x with winnerApprovedAt := some now }) }
        settleIfBothApproved s1 st auctionId (st.sellerApprovedAt ≠ none)
    else if callerId = st.sellerId then
      if st.sellerApprovedAt ≠ none then (.alreadyApproved, s)
      else
        let s1 : State :=
          { s with
            settlements := updateFirstSettlement s.settlements auctionId
              (fun x => { x with sellerApprovedAt := some now }) }
        settleIfBothApproved s1 st auctionId (st.winnerApprovedAt ≠ none)
    else (.forbidden, s)

/-- Outcome of the wallet `Deposit` handler. -/
inductive DepositResult
  | invalid
  | conflict
  | ok
deriving DecidableEq, Repr

/-- Handler `Deposit` (wallet handler).  `genRef` stands for the server-generated
`"FE" + millis` reference used when the client sends an empty `upi_ref`.  The
idempotency check is `SELECT COUNT(*) FROM transactions WHERE reference = $1
AND type = 'DEPOSIT'` — it does not filter on the entry's status. -/
def deposit (s : State) (userId : String) (amount : Int) (upiRef genRef : String) :
    DepositResult × State :=
  if amount ≤ 0 then (.invalid, s)
  else
    let ref := if upiRef = "" then genRef else upiRef
    if s.journal.any (fun e => e.reference == some ref && e.kind == .deposit) then
      (.conflict, s)
    else
      (.ok,
        { s with
          users := creditUser s.users userId amount,
          journal := s.journal ++ [⟨userId, amount, .deposit, .completed, some ref⟩] })

/-- Outcome of the wallet `Withdraw` handler. -/
inductive WithdrawResult
  | invalid
  | userNotFound
  | insufficientFunds
  | ok
deriving DecidableEq, Repr

/-- Handler `Withdraw` (wallet handler): lock the user row, require balance ≥ amount,
debit, journal a WITHDRAW entry referencing the UPI id. -/
def withdraw (s : State) (userId : String) (amount : Int) (upiId : String) :
    WithdrawResult × State :=
  if amount ≤ 0 then (.invalid, s)
  else
    match findUser s userId with
    | none => (.userNotFound, s)
    | some u =>
      if u.balance < amount then (.insufficientFunds, s)
      else
        (.ok,
          { s with
            users := debitUser s.users userId amount,
            journal := s.journal ++ [⟨userId, amount, .withdraw, .completed, some upiId⟩] })

/-- One request against the transactional core, for stating invariants over
all five mutating operations uniformly. -/
inductive Op
  | bid (now : Int) (userId auctionId : String) (amount : Int)
  | finalize (now : Int) (auctionId : String)
  | approve (now : Int) (callerId auctionId : String)
  | deposit (userId : String) (amount : Int) (upiRef genRef : String)
  | withdraw (userId : String) (amount : Int) (upiId : String)
deriving DecidableEq, Repr

/-- The state after one operation (errors leave the state unchanged, so this
covers both committed and rolled-back requests). -/
def applyOp (s : State) : Op → State
  | .bid now u aid amt => (placeBid s now u aid amt).2
  | .finalize now aid => (endAuctionIfExpired s now aid).2
  | .approve now c aid => (approveSettlement s now c aid).2
  | .deposit u amt ref gen => (deposit s u amt ref gen).2
  | .withdraw u amt upi => (withdraw s u amt upi).2

/-- Whether a `PlaceBid` outcome is the 200 success. -/
def BidResult.isOk : BidResult → Bool
  | .success _ => true
  | _ => false

/-! ## Invariants over the hold table -/

/-- Number of hold rows for the pair `(aid, uid)` whose status is SOFT or
HARD (the non-terminal states). -/
def softHardCount (holds : List Hold) (aid uid : String) : Nat :=
  holds.countP (fun h =>
    h.auctionId == aid && h.userId == uid &&
      (h.status == HoldStatus.soft || h.status == HoldStatus.hard))

/-- At most one non-terminal hold per (auction, user) pair. -/
def HoldUniq (holds : List Hold) : Prop :=
  ∀ h ∈ holds, softHardCount holds h.auctionId h.userId ≤ 1

/-- A SOFT hold's owner is the current highest bidder of its auction. -/
def softOwnerOk (auctions : List Auction) (h : Hold) : Bool :=
  match auctions.find? (fun a => a.id == h.auctionId) with
  | some a => a.highestBidderId == some h.userId
  | none => false

/-- Every SOFT hold belongs to the highest bidder of an existing auction. -/
def SoftOwned (auctions : List Auction) (holds : List Hold) : Prop :=
  ∀ h ∈ holds, h.status = .soft → softOwnerOk auctions h = true

/-- A HARD hold's auction has status ENDED. -/
def hardEndedOk (auctions : List Auction) (h : Hold) : Bool :=
  match auctions.find? (fun a => a.id == h.auctionId) with
  | some a => a.status == AuctionStatus.ended
  | none => false

/-- HARD holds exist only on ENDED auctions. -/
def HardEnded (auctions : List Auction) (holds : List Hold) : Prop :=
  ∀ h ∈ holds, h.status = .hard → hardEndedOk auctions h = true

/-- The inductive hold-table invariant of the single-winner design. -/
def HoldInv (s : State) : Prop :=
  HoldUniq s.holds ∧ SoftOwned s.auctions s.holds ∧ HardEnded s.auctions s.holds

/-- A bid by the user who is already the auction's highest bidder (the
self-outbid edge case of §9 of the design notes). -/
def isSelfOutbid (s : State) : Op → Bool
  | .bid _ userId auctionId _ =>
    match findAuction s auctionId with
    | some a => a.highestBidderId == some userId
    | none => false
  | _ => false

/-! ## Shape of the committed `PlaceBid` state -/

/-- The auction-row update of step 8 of the bid transaction. -/
def advanceAuction (auctionId userId : String) (amount : Int) (x : Auction) : Auction :=
  if x.id == auctionId then { x with currentHighBid := amount, highestBidderId := some userId }
  else x

/-- Witness for C1 at scenario 2 of the spec: Carol (wallet 500) bids
1,000 → InsufficientFunds / 402, state untouched. -/
def stateC1 : State :=
  { users := [⟨"carol", 500⟩],
    auctions := [⟨"a1", "dan", 100, none, .active, 1000⟩],
    holds := [], journal := [], settlements := [], bids := [] }

/-- C6 counterexample: the Go check is the strict `time.Now().After(endTime)`,
so a bid arriving exactly at the end time is *not* rejected.  Here
`now = end_time = 50`, so `now ≥ end_time` holds, yet the bid succeeds
instead of failing with AuctionClosed. -/
def stateC6 : State :=
  { users := [⟨"u", 5000⟩],
    auctions := [⟨"a", "s", 100, none, .active, 50⟩],
    holds := [], journal := [], settlements := [], bids := [] }

/-- Witness for C9: Dan, the seller of auction a9, bids 500 on it and becomes
the highest bidder. -/
def stateC9 : State :=
  { users := [⟨"dan", 3000⟩],
    auctions := [⟨"a9", "dan", 100, none, .active, 1000⟩],
    holds := [], journal := [], settlements := [], bids := [] }

/-! ## Balance observations -/

/-- The wallet balance the first matching `users` row reports. -/
def balanceOf (users : List User) (uid : String) : Option Int :=
  (users.find? (fun u => u.id == uid)).map (fun u => u.balance)

/-- C4 counterexample: auction a4 records "p" as highest bidder but the hold
table has *no* SOFT hold for ("a4", "p") — the data-integrity situation the
claim says must surface as Internal without committing.  The code performs no
such check: the bid succeeds, "p" is still credited the previous high bid and
a REFUND entry is journalled. -/
def stateC4 : State :=
  { users := [⟨"p", 0⟩, ⟨"u", 1000⟩],
    auctions := [⟨"a4", "s", 100, some "p", .active, 1000⟩],
    holds := [], journal := [], settlements := [], bids := [] }

/-- Witness for C4 amended, at scenario 1 of the spec: Alice holds a SOFT
hold of 1,500 on auction a, Bob outbids with 2,000; Alice's hold is released,
her wallet restored to 10,000, and a REFUND entry appended. -/
def stateC4w : State :=
  { users := [⟨"alice", 8500⟩, ⟨"bob", 10000⟩],
    auctions := [⟨"a", "s", 1500, some "alice", .active, 1000⟩],
    holds := [⟨"a", "alice", 1500, .soft⟩],
    journal := [], settlements := [], bids := [] }

/-- Witness for C7: auction a7 (ACTIVE, end 10, no bids) read at time 20. -/
def stateC7 : State :=
  { users := [⟨"x", 100⟩],
    auctions := [⟨"a7", "x", 50, none, .active, 10⟩],
    holds := [], journal := [], settlements := [], bids := [] }

/-- Witness for C3 at scenario 4 of the spec: winner Bob approves first
(PENDING, both_approved = false), then seller Dan approves: COMPLETED, Dan's
wallet +2,000, Bob's HARD hold SETTLED, two TRANSFER entries. -/
def stateC3 : State :=
  { users := [⟨"bob", 8000⟩, ⟨"dan", 0⟩],
    auctions := [⟨"a3", "dan", 2000, some "bob", .ended, 10⟩],
    holds := [⟨"a3", "bob", 2000, .hard⟩],
    journal := [],
    settlements := [⟨"a3", "bob", "dan", 2000, none, none, .pending⟩],
    bids := [] }

/-- Witness for C10: winner Wendy completes a settlement whose HARD hold row
is absent; the call still succeeds and credits the seller. -/
def stateC10 : State :=
  { users := [⟨"wendy", 0⟩, ⟨"sam", 50⟩],
    auctions := [⟨"a10", "sam", 700, some "wendy", .ended, 10⟩],
    holds := [],
    journal := [],
    settlements := [⟨"a10", "wendy", "sam", 700, none, some 5, .pending⟩],
    bids := [] }

/-- C5 counterexample: the idempotency query filters on `type = 'DEPOSIT'`
only, not on the entry's status.  A journal holding a single FAILED DEPOSIT
with reference "X" — so *no* COMPLETED DEPOSIT with that reference — still
makes a deposit with reference "X" fail with Conflict, contradicting
"fails … exactly when a COMPLETED DEPOSIT … exists". -/
def stateC5 : State :=
  { users := [⟨"u", 0⟩], auctions := [], holds := [],
    journal := [⟨"u", 100, .deposit, .failed, some "X"⟩],
    settlements := [], bids := [] }

/-- Witness for C5 amended, at scenario 6 of the spec: deposit 100 with
reference "X" succeeds (+100); the identical repeat fails with Conflict and
changes nothing. -/
def stateC5w : State :=
  { users := [⟨"u", 0⟩], auctions := [], holds := [],
    journal := [], settlements := [], bids := [] }

/-- C2 counterexample: a user who is already the highest bidder raises their
own bid; the release step is skipped and a second SOFT hold is inserted, so
the pair (a2, u) ends with two non-terminal holds after a committed
operation. -/
def stateC2 : State :=
  { users := [⟨"u", 5000⟩],
    auctions := [⟨"a2", "s", 100, none, .active, 1000⟩],
    holds := [], journal := [], settlements := [], bids := [] }

/-- Witness for C2 amended: Bob outbids Alice on an auction where Alice
holds the single SOFT hold; the invariant survives. -/
def stateC2w : State :=
  { users := [⟨"alice", 8500⟩, ⟨"bob", 10000⟩],
    auctions := [⟨"a2w", "s", 1500, some "alice", .active, 1000⟩],
    holds := [⟨"a2w", "alice", 1500, .soft⟩],
    journal := [], settlements := [], bids := [] }

/-! ## Non-negative balances -/

/-- The `users` primary key: no two rows share an id. -/
def UsersNodup (users : List User) : Prop :=
  (users.map (fun u => u.id)).Nodup

/-- Every wallet balance is non-negative. -/
def BalancesNonneg (users : List User) : Prop :=
  ∀ u ∈ users, 0 ≤ u.balance

/-- The inductive money invariant: schema key on users, non-negative
balances, non-negative hold and settlement amounts, and a non-negative
current high bid whenever a highest bidder is recorded. -/
def MoneyInv (s : State) : Prop :=
  UsersNodup s.users ∧ BalancesNonneg s.users ∧
  (∀ h ∈ s.holds, 0 ≤ h.amount) ∧
  (∀ st ∈ s.settlements, 0 ≤ st.amount) ∧
  (∀ a ∈ s.auctions, a.highestBidderId ≠ none → 0 ≤ a.currentHighBid)

/-- Witness for C8: a withdrawal of 400 from a wallet holding 500 leaves all
balances non-negative. -/
def stateC8w : State :=
  { users := [⟨"u", 500⟩, ⟨"v", 0⟩],
    auctions := [⟨"a8", "v", 100, some "u", .active, 1000⟩],
    holds := [⟨"a8", "u", 100, .soft⟩],
    journal := [], settlements := [], bids := [] }

/-! ## Generic list lemmas -/

theorem find?_map_of_pred_eq {α : Type} (l : List α) (f : α → α) (p : α → Bool)
    (hf : ∀ x, p (f x) = p x) :
    (l.map f).find? p = (l.find? p).map f := by
  rw [List.find?_map]
  have hpf : (p ∘ f) = p := funext fun x => hf x
  rw [hpf]

theorem countP_map_le {α : Type} (l : List α) (f : α → α) (p : α → Bool)
    (hf : ∀ x, p (f x) = true → p x = true) :
    (l.map f).countP p ≤ l.countP p := by
  rw [List.countP_map]
  exact List.countP_mono_left fun x _ hx => hf x hx

theorem countP_eq_zero_of {α : Type} (l : List α) (p : α → Bool)
    (h : ∀ x ∈ l, p x = false) : l.countP p = 0 := by
  rw [List.countP_eq_zero]
  intro x hx
  simp [h x hx]

theorem map_eq_self_of_no_match {α : Type} (l : List α) (p : α → Bool) (f : α → α)
    (h : ∀ x ∈ l, p x = false) :
    l.map (fun x => if p x then f x else x) = l := by
  induction l with
  | nil => rfl
  | cons a t ih =>
    simp only [List.map_cons, h a (by simp), if_false, List.cons.injEq]
    exact ⟨rfl, ih fun x hx => h x (by simp [hx])⟩

theorem advanceAuction_id (auctionId userId : String) (amount : Int) (x : Auction) :
    (advanceAuction auctionId userId amount x).id = x.id := by
  unfold advanceAuction
  split <;> rfl

/-- Committed state of a bid when no prior-winner release runs (no previous
highest bidder, or the caller raising their own bid). -/
theorem placeBid_commit_noRelease (s : State) (now : Int) (userId auctionId : String)
    (amount : Int) (a : Auction) (u : User)
    (hfa : findAuction s auctionId = some a)
    (hnle : ¬ amount ≤ 0)
    (hnotclosed : ¬ (a.status ≠ AuctionStatus.active ∨ a.endTime < now))
    (hnotlow : ¬ amount ≤ a.currentHighBid)
    (hfu : findUser s userId = some u) (hbal : ¬ u.balance < amount)
    (hprev : a.highestBidderId = none ∨ a.highestBidderId = some userId) :
    placeBid s now userId auctionId amount =
      (.success amount,
        { users := debitUser s.users userId amount,
          auctions := s.auctions.map (advanceAuction auctionId userId amount),
          holds := s.holds ++ [⟨auctionId, userId, amount, .soft⟩],
          journal := s.journal ++ [⟨userId, amount, .bidHold, .completed, some auctionId⟩],
          settlements := s.settlements,
          bids := s.bids ++ [⟨auctionId, userId, amount⟩] }) := by
  rcases hprev with hprev | hprev <;>
    simp [placeBid, hnle, hfa, hnotclosed, hnotlow, hfu, hbal, hprev, advanceAuction]

/-- Committed state of a bid that displaces a different previous highest
bidder: their SOFT holds are released, their wallet credited the previous
high bid, a REFUND journalled, before the usual debit/hold/advance. -/
theorem placeBid_commit_release (s : State) (now : Int) (userId auctionId : String)
    (amount : Int) (a : Auction) (u : User) (prev : String)
    (hfa : findAuction s auctionId = some a)
    (hnle : ¬ amount ≤ 0)
    (hnotclosed : ¬ (a.status ≠ AuctionStatus.active ∨ a.endTime < now))
    (hnotlow : ¬ amount ≤ a.currentHighBid)
    (hfu : findUser s userId = some u) (hbal : ¬ u.balance < amount)
    (hprev : a.highestBidderId = some prev) (hne : prev ≠ userId) :
    placeBid s now userId auctionId amount =
      (.success amount,
        { users := debitUser (creditUser s.users prev a.currentHighBid) userId amount,
          auctions := s.auctions.map (advanceAuction auctionId userId amount),
          holds := releasePrevHolds s.holds auctionId prev ++
            [⟨auctionId, userId, amount, .soft⟩],
          journal := (s.journal ++
            [⟨prev, a.currentHighBid, .refund, .completed, some auctionId⟩]) ++
            [⟨userId, amount, .bidHold, .completed, some auctionId⟩],
          settlements := s.settlements,
          bids := s.bids ++ [⟨auctionId, userId, amount⟩] }) := by
  simp [placeBid, hnle, hfa, hnotclosed, hnotlow, hfu, hbal, hprev, hne, advanceAuction]

/-! ## Claim theorems -/

/-- C1: every `PlaceBid` request that ends in an error (auction not found,
auction closed, bid too low, user not found, insufficient funds, invalid
amount) rolls the transaction back: the resulting state is exactly the input
state.  In particular a bidder whose balance is below the bid amount gets
`InsufficientFunds`, written with HTTP status 402, and the state is
completely unchanged. -/
theorem placeBid_error_rollback (s : State) (now : Int) (userId auctionId : String)
    (amount : Int) (a : Auction) (u : User) :
    ((placeBid s now userId auctionId amount).1.isOk = false →
      (placeBid s now userId auctionId amount).2 = s)
    ∧ (0 < amount → findAuction s auctionId = some a → a.status = .active →
        ¬ a.endTime < now → a.currentHighBid < amount →
        findUser s userId = some u → u.balance < amount →
        (placeBid s now userId auctionId amount).1 = .insufficientFunds ∧
        bidHttpStatus (placeBid s now userId auctionId amount).1 = 402 ∧
        (placeBid s now userId auctionId amount).2 = s) := by
  constructor
  · intro h
    by_cases h0 : amount ≤ 0
    · simp [placeBid, h0]
    · cases hfa : findAuction s auctionId with
      | none => simp [placeBid, h0, hfa]
      | some a' =>
        by_cases hcl : (a'.status ≠ AuctionStatus.active ∨ a'.endTime < now)
        · simp [placeBid, h0, hfa, hcl]
        · by_cases hlow : amount ≤ a'.currentHighBid
          · simp [placeBid, h0, hfa, hcl, hlow]
          · cases hfu : findUser s userId with
            | none => simp [placeBid, h0, hfa, hcl, hlow, hfu]
            | some u' =>
              by_cases hbal : u'.balance < amount
              · simp [placeBid, h0, hfa, hcl, hlow, hfu, hbal]
              · simp [placeBid, h0, hfa, hcl, hlow, hfu, hbal, BidResult.isOk] at h
  · intro hpos hfa hact htime hhigh hfu hbal
    have hnle : ¬ amount ≤ 0 := by omega
    have hnotclosed : ¬ (a.status ≠ AuctionStatus.active ∨ a.endTime < now) := by
      simp [hact, htime]
    have hnotlow : ¬ amount ≤ a.currentHighBid := by omega
    simp [placeBid, hfa, hfu, hnle, hnotclosed, hnotlow, hbal, bidHttpStatus]

theorem placeBid_error_rollback_witness :
    (placeBid stateC1 0 "carol" "a1" 1000).1 = .insufficientFunds ∧
    bidHttpStatus (placeBid stateC1 0 "carol" "a1" 1000).1 = 402 ∧
    (placeBid stateC1 0 "carol" "a1" 1000).2 = stateC1 :=
  (placeBid_error_rollback stateC1 0 "carol" "a1" 1000
      ⟨"a1", "dan", 100, none, .active, 1000⟩ ⟨"carol", 500⟩).2
    (by decide) (by decide) (by decide) (by decide) (by decide) (by decide) (by decide)

theorem placeBid_at_end_time_not_closed :
    (50 : Int) ≥ 50 ∧
    (placeBid stateC6 50 "u" "a" 200).1 = .success 200 ∧
    (placeBid stateC6 50 "u" "a" 200).1 ≠ .closed := by
  refine ⟨le_refl _, ?_, ?_⟩ <;> decide

/-- C6 amended: `PlaceBid` fails with AuctionClosed (HTTP 409) exactly when
the auction's status is not ACTIVE or the wall-clock time at the check is
*strictly greater* than the end time; a bid arriving exactly at the end time
passes the closed check. -/
theorem placeBid_closed_iff (s : State) (now : Int) (userId auctionId : String)
    (amount : Int) (a : Auction)
    (hpos : 0 < amount) (hfa : findAuction s auctionId = some a) :
    ((placeBid s now userId auctionId amount).1 = .closed ↔
      (a.status ≠ .active ∨ a.endTime < now))
    ∧ bidHttpStatus .closed = 409 := by
  have hnle : ¬ amount ≤ 0 := by omega
  refine ⟨?_, rfl⟩
  constructor
  · intro h
    by_contra hc
    simp only [placeBid, hnle, if_false, hfa] at h
    rw [if_neg hc] at h
    repeat' split at h
    all_goals simp_all
  · intro hc
    simp [placeBid, hnle, hfa, hc]

/-- Witness for C6 amended: one minute past the end time the bid is
rejected as closed. -/
theorem placeBid_closed_iff_witness :
    (placeBid stateC6 51 "u" "a" 200).1 = .closed :=
  ((placeBid_closed_iff stateC6 51 "u" "a" 200
      ⟨"a", "s", 100, none, .active, 50⟩ (by decide) (by decide)).1).mpr
    (by decide)

theorem find?_advance (l : List Auction) (auctionId userId : String) (amount : Int) :
    (l.map (advanceAuction auctionId userId amount)).find? (fun x => x.id == auctionId) =
      (l.find? (fun x => x.id == auctionId)).map (advanceAuction auctionId userId amount) :=
  find?_map_of_pred_eq l _ _ (fun x => by rw [advanceAuction_id])

/-- C9: `PlaceBid` never compares the caller with the seller of the auctioned
product: a seller who satisfies the amount and balance checks on their own
ACTIVE auction succeeds and becomes its highest bidder. -/
theorem placeBid_allows_seller (s : State) (now : Int) (userId auctionId : String)
    (amount : Int) (a : Auction) (u : User)
    (hfa : findAuction s auctionId = some a) (hseller : a.sellerId = userId)
    (hact : a.status = .active) (htime : ¬ a.endTime < now)
    (hhigh : a.currentHighBid < amount) (hpos : 0 < amount)
    (hfu : findUser s userId = some u) (hbal : amount ≤ u.balance) :
    (placeBid s now userId auctionId amount).1 = .success amount ∧
    findAuction (placeBid s now userId auctionId amount).2 auctionId =
      some { a with currentHighBid := amount, highestBidderId := some userId } := by
  have hnle : ¬ amount ≤ 0 := by omega
  have hnotclosed : ¬ (a.status ≠ AuctionStatus.active ∨ a.endTime < now) := by
    simp [hact, htime]
  have hnotlow : ¬ amount ≤ a.currentHighBid := by omega
  have hbal' : ¬ u.balance < amount := by omega
  have hfa' : s.auctions.find? (fun x => x.id == auctionId) = some a := hfa
  have haid0 := List.find?_some hfa'
  have haid : (a.id == auctionId) = true := haid0
  have hfind : findAuction
      { users := debitUser s.users userId amount,
        auctions := s.auctions.map (advanceAuction auctionId userId amount),
        holds := s.holds ++ [⟨auctionId, userId, amount, .soft⟩],
        journal := s.journal ++ [⟨userId, amount, .bidHold, .completed, some auctionId⟩],
        settlements := s.settlements,
        bids := s.bids ++ [⟨auctionId, userId, amount⟩] } auctionId =
      some { a with currentHighBid := amount, highestBidderId := some userId } := by
    show (s.auctions.map (advanceAuction auctionId userId amount)).find?
        (fun x => x.id == auctionId) = _
    rw [find?_advance, hfa']
    simp [advanceAuction, haid]
  rcases hp : a.highestBidderId with _ | prev
  · rw [placeBid_commit_noRelease s now userId auctionId amount a u hfa hnle hnotclosed
      hnotlow hfu hbal' (Or.inl hp)]
    exact ⟨rfl, hfind⟩
  · by_cases hpe : prev = userId
    · rw [hpe] at hp
      rw [placeBid_commit_noRelease s now userId auctionId amount a u hfa hnle hnotclosed
        hnotlow hfu hbal' (Or.inr hp)]
      exact ⟨rfl, hfind⟩
    · rw [placeBid_commit_release s now userId auctionId amount a u prev hfa hnle hnotclosed
        hnotlow hfu hbal' hp hpe]
      refine ⟨rfl, ?_⟩
      show (s.auctions.map (advanceAuction auctionId userId amount)).find?
          (fun x => x.id == auctionId) = _
      rw [find?_advance, hfa']
      simp [advanceAuction, haid]

theorem placeBid_allows_seller_witness :
    (placeBid stateC9 0 "dan" "a9" 500).1 = .success 500 ∧
    findAuction (placeBid stateC9 0 "dan" "a9" 500).2 "a9" =
      some ⟨"a9", "dan", 500, some "dan", .active, 1000⟩ :=
  placeBid_allows_seller stateC9 0 "dan" "a9" 500
    ⟨"a9", "dan", 100, none, .active, 1000⟩ ⟨"dan", 3000⟩
    (by decide) (by decide) (by decide) (by decide) (by decide) (by decide)
    (by decide) (by decide)

theorem balanceOf_creditUser_self (users : List User) (uid : String) (amt : Int) :
    balanceOf (creditUser users uid amt) uid = (balanceOf users uid).map (· + amt) := by
  unfold balanceOf creditUser
  rw [find?_map_of_pred_eq users _ _ (fun u => by split <;> rfl)]
  cases hfind : users.find? (fun u => u.id == uid) with
  | none => rfl
  | some u =>
    have hu := List.find?_some hfind
    have hu' : (u.id == uid) = true := hu
    have hid : u.id = uid := by simpa using hu'
    simp [hid]

theorem balanceOf_creditUser_other (users : List User) (uid target : String) (amt : Int)
    (h : target ≠ uid) :
    balanceOf (creditUser users uid amt) target = balanceOf users target := by
  unfold balanceOf creditUser
  rw [find?_map_of_pred_eq users _ _ (fun u => by split <;> rfl)]
  cases hfind : users.find? (fun u => u.id == target) with
  | none => rfl
  | some u =>
    have hu := List.find?_some hfind
    have hu' : (u.id == target) = true := hu
    have hid : u.id = target := by simpa using hu'
    have hne : u.id ≠ uid := by rw [hid]; exact h
    simp [hne]

theorem balanceOf_debitUser_self (users : List User) (uid : String) (amt : Int) :
    balanceOf (debitUser users uid amt) uid = (balanceOf users uid).map (· - amt) := by
  unfold balanceOf debitUser
  rw [find?_map_of_pred_eq users _ _ (fun u => by split <;> rfl)]
  cases hfind : users.find? (fun u => u.id == uid) with
  | none => rfl
  | some u =>
    have hu := List.find?_some hfind
    have hu' : (u.id == uid) = true := hu
    have hid : u.id = uid := by simpa using hu'
    simp [hid]

theorem balanceOf_debitUser_other (users : List User) (uid target : String) (amt : Int)
    (h : target ≠ uid) :
    balanceOf (debitUser users uid amt) target = balanceOf users target := by
  unfold balanceOf debitUser
  rw [find?_map_of_pred_eq users _ _ (fun u => by split <;> rfl)]
  cases hfind : users.find? (fun u => u.id == target) with
  | none => rfl
  | some u =>
    have hu := List.find?_some hfind
    have hu' : (u.id == target) = true := hu
    have hid : u.id = target := by simpa using hu'
    have hne : u.id ≠ uid := by rw [hid]; exact h
    simp [hne]

theorem placeBid_missing_hold_commits :
    stateC4.holds = [] ∧
    (placeBid stateC4 0 "u" "a4" 200).1 = .success 200 ∧
    balanceOf (placeBid stateC4 0 "u" "a4" 200).2.users "p" = some 100 ∧
    (placeBid stateC4 0 "u" "a4" 200).2.journal =
      [⟨"p", 100, .refund, .completed, some "a4"⟩,
       ⟨"u", 200, .bidHold, .completed, some "a4"⟩] := by
  refine ⟨rfl, ?_, ?_, ?_⟩ <;> decide

/-- C4 amended: whenever a prior highest bidder exists and is not the caller,
`PlaceBid` marks *every* SOFT hold of that user for the auction RELEASED
(zero or more rows — the affected-row count is discarded, so absence of the
hold is not detected), credits them the previous `current_high_bid`, appends
a REFUND journal entry referencing the auction, and the bid commits with no
error in every case. -/
theorem placeBid_release_unchecked (s : State) (now : Int) (userId auctionId : String)
    (amount : Int) (a : Auction) (u : User) (prev : String) (up : User)
    (hfa : findAuction s auctionId = some a)
    (hact : a.status = .active) (htime : ¬ a.endTime < now)
    (hhigh : a.currentHighBid < amount) (hpos : 0 < amount)
    (hfu : findUser s userId = some u) (hbal : amount ≤ u.balance)
    (hprev : a.highestBidderId = some prev) (hne : prev ≠ userId)
    (hup : findUser s prev = some up) :
    (placeBid s now userId auctionId amount).1 = .success amount ∧
    (placeBid s now userId auctionId amount).2.holds =
      releasePrevHolds s.holds auctionId prev ++ [⟨auctionId, userId, amount, .soft⟩] ∧
    balanceOf (placeBid s now userId auctionId amount).2.users prev =
      some (up.balance + a.currentHighBid) ∧
    (placeBid s now userId auctionId amount).2.journal =
      (s.journal ++ [⟨prev, a.currentHighBid, .refund, .completed, some auctionId⟩]) ++
        [⟨userId, amount, .bidHold, .completed, some auctionId⟩] := by
  have hnle : ¬ amount ≤ 0 := by omega
  have hnotclosed : ¬ (a.status ≠ AuctionStatus.active ∨ a.endTime < now) := by
    simp [hact, htime]
  have hnotlow : ¬ amount ≤ a.currentHighBid := by omega
  have hbal' : ¬ u.balance < amount := by omega
  rw [placeBid_commit_release s now userId auctionId amount a u prev hfa hnle hnotclosed
    hnotlow hfu hbal' hprev hne]
  refine ⟨rfl, rfl, ?_, rfl⟩
  show balanceOf (debitUser (creditUser s.users prev a.currentHighBid) userId amount) prev = _
  rw [balanceOf_debitUser_other _ _ _ _ hne, balanceOf_creditUser_self]
  have hb : balanceOf s.users prev = some up.balance := by
    unfold balanceOf
    rw [show s.users.find? (fun x => x.id == prev) = some up from hup]
    rfl
  rw [hb]
  rfl

theorem placeBid_release_unchecked_witness :
    (placeBid stateC4w 0 "bob" "a" 2000).1 = .success 2000 ∧
    (placeBid stateC4w 0 "bob" "a" 2000).2.holds =
      releasePrevHolds stateC4w.holds "a" "alice" ++ [⟨"a", "bob", 2000, .soft⟩] ∧
    balanceOf (placeBid stateC4w 0 "bob" "a" 2000).2.users "alice" = some (8500 + 1500) ∧
    (placeBid stateC4w 0 "bob" "a" 2000).2.journal =
      (stateC4w.journal ++ [⟨"alice", 1500, .refund, .completed, some "a"⟩]) ++
        [⟨"bob", 2000, .bidHold, .completed, some "a"⟩] :=
  placeBid_release_unchecked stateC4w 0 "bob" "a" 2000
    ⟨"a", "s", 1500, some "alice", .active, 1000⟩ ⟨"bob", 10000⟩ "alice" ⟨"alice", 8500⟩
    (by decide) (by decide) (by decide) (by decide) (by decide) (by decide)
    (by decide) (by decide) (by decide) (by decide)

theorem find?_updateFirstSettlement (l : List Settlement) (aid : String)
    (f : Settlement → Settlement) (hf : ∀ x, (f x).auctionId = x.auctionId) :
    (updateFirstSettlement l aid f).find? (fun x => x.auctionId == aid) =
      (l.find? (fun x => x.auctionId == aid)).map f := by
  induction l with
  | nil => rfl
  | cons st rest ih =>
    unfold updateFirstSettlement
    by_cases hst : (st.auctionId == aid) = true
    · have hfst : ((f st).auctionId == aid) = true := by rw [hf]; exact hst
      have h1 : List.find? (fun x => x.auctionId == aid) (f st :: rest) = some (f st) :=
        List.find?_cons_of_pos _ hfst
      have h2 : List.find? (fun x => x.auctionId == aid) (st :: rest) = some st :=
        List.find?_cons_of_pos _ hst
      rw [if_pos hst, h1, h2]
      rfl
    · have h1 : List.find? (fun x => x.auctionId == aid) (st :: updateFirstSettlement rest aid f) =
          List.find? (fun x => x.auctionId == aid) (updateFirstSettlement rest aid f) :=
        List.find?_cons_of_neg _ hst
      have h2 : List.find? (fun x => x.auctionId == aid) (st :: rest) =
          List.find? (fun x => x.auctionId == aid) rest :=
        List.find?_cons_of_neg _ hst
      rw [if_neg hst, h1, h2]
      exact ih

/-- C7: for an expired ACTIVE auction with no highest bidder, the lazy
finalizer only flips the status to ENDED: no settlement row is created, no
hold is touched, no wallet or journal entry changes, and a subsequent
Approve call on the auction returns NotFound. -/
theorem finalize_no_bidder (s : State) (now : Int) (auctionId : String) (a : Auction)
    (hfa : findAuction s auctionId = some a)
    (hact : a.status = .active) (htime : a.endTime < now)
    (hnb : a.highestBidderId = none)
    (hns : findSettlement s auctionId = none)
    (now2 : Int) (callerId : String) :
    (endAuctionIfExpired s now auctionId).1 = .ended ∧
    findAuction (endAuctionIfExpired s now auctionId).2 auctionId =
      some { a with status := .ended } ∧
    (endAuctionIfExpired s now auctionId).2.holds = s.holds ∧
    (endAuctionIfExpired s now auctionId).2.users = s.users ∧
    (endAuctionIfExpired s now auctionId).2.journal = s.journal ∧
    (endAuctionIfExpired s now auctionId).2.settlements = s.settlements ∧
    (approveSettlement (endAuctionIfExpired s now auctionId).2 now2 callerId auctionId).1 =
      .notFound ∧
    (approveSettlement (endAuctionIfExpired s now auctionId).2 now2 callerId auctionId).2 =
      (endAuctionIfExpired s now auctionId).2 := by
  have hfa' : s.auctions.find? (fun x => x.id == auctionId) = some a := hfa
  have haid0 := List.find?_some hfa'
  have haid : (a.id == auctionId) = true := haid0
  have haeq : a.id = auctionId := by simpa using haid
  have heq : endAuctionIfExpired s now auctionId =
      (.ended,
        { s with auctions := s.auctions.map (fun x =>
            if x.id == auctionId then { x with status := .ended } else x) }) := by
    simp [endAuctionIfExpired, hfa, hact, htime, hnb]
  rw [heq]
  have hfind : findAuction
      { s with auctions := s.auctions.map (fun x =>
          if x.id == auctionId then { x with status := .ended } else x) } auctionId =
      some { a with status := .ended } := by
    show (s.auctions.map (fun x =>
        if x.id == auctionId then { x with status := .ended } else x)).find?
        (fun x => x.id == auctionId) = _
    rw [find?_map_of_pred_eq s.auctions _ _ (fun x => by split <;> rfl), hfa']
    simp [haeq]
  have hfs : findSettlement
      { s with auctions := s.auctions.map (fun x =>
          if x.id == auctionId then { x with status := .ended } else x) } auctionId = none := hns
  have happ : approveSettlement
      { s with auctions := s.auctions.map (fun x =>
          if x.id == auctionId then { x with status := .ended } else x) } now2 callerId
      auctionId =
      (.notFound,
        { s with auctions := s.auctions.map (fun x =>
            if x.id == auctionId then { x with status := .ended } else x) }) := by
    unfold approveSettlement
    rw [hfs]
  exact ⟨rfl, hfind, rfl, rfl, rfl, rfl, by rw [happ], by rw [happ]⟩

theorem finalize_no_bidder_witness :
    (endAuctionIfExpired stateC7 20 "a7").1 = .ended ∧
    findAuction (endAuctionIfExpired stateC7 20 "a7").2 "a7" =
      some ⟨"a7", "x", 50, none, .ended, 10⟩ ∧
    (endAuctionIfExpired stateC7 20 "a7").2.settlements = [] ∧
    (approveSettlement (endAuctionIfExpired stateC7 20 "a7").2 30 "x" "a7").1 = .notFound := by
  have h := finalize_no_bidder stateC7 20 "a7" ⟨"a7", "x", 50, none, .active, 10⟩
    (by decide) (by decide) (by decide) (by decide) (by decide) 30 "x"
  exact ⟨h.1, h.2.1, h.2.2.2.2.2.1.trans rfl, h.2.2.2.2.2.2.1⟩

/-- C3: for a PENDING settlement, a first approval only stamps the caller's
approval time and answers `both_approved = false` with status PENDING; the
second approval (by the other party) completes in one transaction: the
settlement becomes COMPLETED, the winner's HARD hold rows on the auction are
set to SETTLED, the seller is credited exactly the settlement amount, and two
COMPLETED TRANSFER journal entries (winner first, then seller) referencing
the auction are appended. -/
theorem approveSettlement_dual (s : State) (now : Int) (callerId auctionId : String)
    (st : Settlement) (t : Int)
    (hfs : findSettlement s auctionId = some st)
    (hpend : st.status = .pending) :
    (callerId = st.winnerId → st.winnerApprovedAt = none → st.sellerApprovedAt = none →
      (approveSettlement s now callerId auctionId).1 = .ok false .pending ∧
      findSettlement (approveSettlement s now callerId auctionId).2 auctionId =
        some { st with winnerApprovedAt := some now } ∧
      (approveSettlement s now callerId auctionId).2.holds = s.holds ∧
      (approveSettlement s now callerId auctionId).2.users = s.users ∧
      (approveSettlement s now callerId auctionId).2.journal = s.journal) ∧
    (callerId ≠ st.winnerId → callerId = st.sellerId → st.sellerApprovedAt = none →
      st.winnerApprovedAt = none →
      (approveSettlement s now callerId auctionId).1 = .ok false .pending ∧
      findSettlement (approveSettlement s now callerId auctionId).2 auctionId =
        some { st with sellerApprovedAt := some now } ∧
      (approveSettlement s now callerId auctionId).2.holds = s.holds ∧
      (approveSettlement s now callerId auctionId).2.users = s.users ∧
      (approveSettlement s now callerId auctionId).2.journal = s.journal) ∧
    (callerId = st.winnerId → st.winnerApprovedAt = none → st.sellerApprovedAt = some t →
      (approveSettlement s now callerId auctionId).1 = .ok true .completed ∧
      findSettlement (approveSettlement s now callerId auctionId).2 auctionId =
        some { st with winnerApprovedAt := some now, status := .completed } ∧
      (approveSettlement s now callerId auctionId).2.holds =
        s.holds.map (fun h =>
          if h.auctionId == auctionId && h.userId == st.winnerId && h.status == .hard then
            { h with status := .settled }
          else h) ∧
      (approveSettlement s now callerId auctionId).2.users =
        creditUser s.users st.sellerId st.amount ∧
      (approveSettlement s now callerId auctionId).2.journal =
        s.journal ++
          [⟨st.winnerId, st.amount, .transfer, .completed, some auctionId⟩,
           ⟨st.sellerId, st.amount, .transfer, .completed, some auctionId⟩]) ∧
    (callerId ≠ st.winnerId → callerId = st.sellerId → st.sellerApprovedAt = none →
      st.winnerApprovedAt = some t →
      (approveSettlement s now callerId auctionId).1 = .ok true .completed ∧
      findSettlement (approveSettlement s now callerId auctionId).2 auctionId =
        some { st with sellerApprovedAt := some now, status := .completed } ∧
      (approveSettlement s now callerId auctionId).2.holds =
        s.holds.map (fun h =>
          if h.auctionId == auctionId && h.userId == st.winnerId && h.status == .hard then
            { h with status := .settled }
          else h) ∧
      (approveSettlement s now callerId auctionId).2.users =
        creditUser s.users st.sellerId st.amount ∧
      (approveSettlement s now callerId auctionId).2.journal =
        s.journal ++
          [⟨st.winnerId, st.amount, .transfer, .completed, some auctionId⟩,
           ⟨st.sellerId, st.amount, .transfer, .completed, some auctionId⟩]) := by
  have hfs' : s.settlements.find? (fun x => x.auctionId == auctionId) = some st := hfs
  refine ⟨?_, ?_, ?_, ?_⟩
  · intro hcw hwa hsa
    have heq : approveSettlement s now callerId auctionId =
        (.ok false .pending,
          { s with settlements := (updateFirstSettlement s.settlements auctionId
              (fun x => { x with winnerApprovedAt := some now })) }) := by
      simp [approveSettlement, hfs, hpend, hcw, hwa, hsa, settleIfBothApproved]
    rw [heq]
    refine ⟨rfl, ?_, rfl, rfl, rfl⟩
    have hkey := find?_updateFirstSettlement s.settlements auctionId
      (fun x => { x with winnerApprovedAt := some now }) (fun x => rfl)
    show (updateFirstSettlement s.settlements auctionId
        (fun x => { x with winnerApprovedAt := some now })).find?
        (fun x => x.auctionId == auctionId) = _
    rw [hkey, hfs']
    rfl
  · intro hcw hcs hsa hwa
    have hsw : st.sellerId ≠ st.winnerId := by rw [← hcs]; exact hcw
    have heq : approveSettlement s now callerId auctionId =
        (.ok false .pending,
          { s with settlements := (updateFirstSettlement s.settlements auctionId
              (fun x => { x with sellerApprovedAt := some now })) }) := by
      simp [approveSettlement, hfs, hpend, hcw, hcs, hsw, hwa, hsa, settleIfBothApproved]
    rw [heq]
    refine ⟨rfl, ?_, rfl, rfl, rfl⟩
    have hkey := find?_updateFirstSettlement s.settlements auctionId
      (fun x => { x with sellerApprovedAt := some now }) (fun x => rfl)
    show (updateFirstSettlement s.settlements auctionId
        (fun x => { x with sellerApprovedAt := some now })).find?
        (fun x => x.auctionId == auctionId) = _
    rw [hkey, hfs']
    rfl
  · intro hcw hwa hsa
    have heq : approveSettlement s now callerId auctionId =
        (.ok true .completed,
          { s with
            settlements := (updateFirstSettlement
              (updateFirstSettlement s.settlements auctionId
                (fun x => { x with winnerApprovedAt := some now })) auctionId
              (fun x => { x with status := .completed })),
            holds := (s.holds.map (fun h =>
              if h.auctionId == auctionId && h.userId == st.winnerId && h.status == .hard then
                { h with status := .settled }
              else h)),
            users := creditUser s.users st.sellerId st.amount,
            journal := (s.journal ++
              [⟨st.winnerId, st.amount, .transfer, .completed, some auctionId⟩,
               ⟨st.sellerId, st.amount, .transfer, .completed, some auctionId⟩]) }) := by
      simp [approveSettlement, hfs, hpend, hcw, hwa, hsa, settleIfBothApproved]
    rw [heq]
    refine ⟨rfl, ?_, rfl, rfl, rfl⟩
    have hkey1 := find?_updateFirstSettlement s.settlements auctionId
      (fun x => { x with winnerApprovedAt := some now }) (fun x => rfl)
    have hkey2 := find?_updateFirstSettlement
      (updateFirstSettlement s.settlements auctionId
        (fun x => { x with winnerApprovedAt := some now })) auctionId
      (fun x => { x with status := SettlementStatus.completed }) (fun x => rfl)
    show (updateFirstSettlement (updateFirstSettlement s.settlements auctionId
        (fun x => { x with winnerApprovedAt := some now })) auctionId
        (fun x => { x with status := .completed })).find?
        (fun x => x.auctionId == auctionId) = _
    rw [hkey2, hkey1, hfs']
    rfl
  · intro hcw hcs hsa hwa
    have hsw : st.sellerId ≠ st.winnerId := by rw [← hcs]; exact hcw
    have heq : approveSettlement s now callerId auctionId =
        (.ok true .completed,
          { s with
            settlements := (updateFirstSettlement
              (updateFirstSettlement s.settlements auctionId
                (fun x => { x with sellerApprovedAt := some now })) auctionId
              (fun x => { x with status := .completed })),
            holds := (s.holds.map (fun h =>
              if h.auctionId == auctionId && h.userId == st.winnerId && h.status == .hard then
                { h with status := .settled }
              else h)),
            users := creditUser s.users st.sellerId st.amount,
            journal := (s.journal ++
              [⟨st.winnerId, st.amount, .transfer, .completed, some auctionId⟩,
               ⟨st.sellerId, st.amount, .transfer, .completed, some auctionId⟩]) }) := by
      simp [approveSettlement, hfs, hpend, hcw, hcs, hsw, hwa, hsa, settleIfBothApproved]
    rw [heq]
    refine ⟨rfl, ?_, rfl, rfl, rfl⟩
    have hkey1 := find?_updateFirstSettlement s.settlements auctionId
      (fun x => { x with sellerApprovedAt := some now }) (fun x => rfl)
    have hkey2 := find?_updateFirstSettlement
      (updateFirstSettlement s.settlements auctionId
        (fun x => { x with sellerApprovedAt := some now })) auctionId
      (fun x => { x with status := SettlementStatus.completed }) (fun x => rfl)
    show (updateFirstSettlement (updateFirstSettlement s.settlements auctionId
        (fun x => { x with sellerApprovedAt := some now })) auctionId
        (fun x => { x with status := .completed })).find?
        (fun x => x.auctionId == auctionId) = _
    rw [hkey2, hkey1, hfs']
    rfl

theorem approveSettlement_dual_witness :
    ((approveSettlement stateC3 100 "bob" "a3").1 = .ok false .pending ∧
      (approveSettlement stateC3 100 "bob" "a3").2.users = stateC3.users) ∧
    ((approveSettlement (approveSettlement stateC3 100 "bob" "a3").2 200 "dan" "a3").1 =
        .ok true .completed ∧
      (approveSettlement (approveSettlement stateC3 100 "bob" "a3").2 200 "dan" "a3").2.users =
        creditUser (approveSettlement stateC3 100 "bob" "a3").2.users "dan" 2000 ∧
      (approveSettlement (approveSettlement stateC3 100 "bob" "a3").2 200 "dan" "a3").2.holds =
        [⟨"a3", "bob", 2000, .settled⟩] ∧
      (approveSettlement (approveSettlement stateC3 100 "bob" "a3").2 200 "dan" "a3").2.journal =
        [⟨"bob", 2000, .transfer, .completed, some "a3"⟩,
         ⟨"dan", 2000, .transfer, .completed, some "a3"⟩]) := by
  have h1 := approveSettlement_dual stateC3 100 "bob" "a3"
    ⟨"a3", "bob", "dan", 2000, none, none, .pending⟩ 0 (by decide) (by decide)
  have h1' := h1.1 (by decide) (by decide) (by decide)
  have h2 := approveSettlement_dual (approveSettlement stateC3 100 "bob" "a3").2 200 "dan" "a3"
    ⟨"a3", "bob", "dan", 2000, some 100, none, .pending⟩ 100
    (by rw [show (approveSettlement stateC3 100 "bob" "a3").2 =
        { stateC3 with settlements := [⟨"a3", "bob", "dan", 2000, some 100, none, .pending⟩] }
      from by decide]; rfl)
    (by decide)
  have h2' := h2.2.2.2 (by decide) (by decide) (by decide) (by decide)
  refine ⟨⟨h1'.1, h1'.2.2.2.1⟩, h2'.1, h2'.2.2.2.1, ?_, ?_⟩
  · rw [h2'.2.2.1]
    decide
  · rw [h2'.2.2.2.2]
    decide

/-- C10: when the second approval arrives, `ApproveSettlement` completes
without consulting the hold table: even if no HARD hold row exists for
(auction, winner), the hold update silently affects zero rows — the hold
table is left exactly as it was — while the settlement is still marked
COMPLETED, the seller is credited, and no error is reported. -/
theorem approveSettlement_completes_without_hold (s : State) (now : Int)
    (callerId auctionId : String) (st : Settlement) (t : Int)
    (hfs : findSettlement s auctionId = some st)
    (hpend : st.status = .pending)
    (hcw : callerId = st.winnerId)
    (hwa : st.winnerApprovedAt = none)
    (hsa : st.sellerApprovedAt = some t)
    (hnohold : ∀ h ∈ s.holds,
      (h.auctionId == auctionId && h.userId == st.winnerId &&
        h.status == HoldStatus.hard) = false) :
    (approveSettlement s now callerId auctionId).1 = .ok true .completed ∧
    (approveSettlement s now callerId auctionId).2.holds = s.holds ∧
    (approveSettlement s now callerId auctionId).2.users =
      creditUser s.users st.sellerId st.amount ∧
    findSettlement (approveSettlement s now callerId auctionId).2 auctionId =
      some { st with winnerApprovedAt := some now, status := .completed } := by
  have hfs' : s.settlements.find? (fun x => x.auctionId == auctionId) = some st := hfs
  have heq : approveSettlement s now callerId auctionId =
      (.ok true .completed,
        { s with
          settlements := (updateFirstSettlement
            (updateFirstSettlement s.settlements auctionId
              (fun x => { x with winnerApprovedAt := some now })) auctionId
            (fun x => { x with status := .completed })),
          holds := (s.holds.map (fun h =>
            if h.auctionId == auctionId && h.userId == st.winnerId && h.status == .hard then
              { h with status := .settled }
            else h)),
          users := creditUser s.users st.sellerId st.amount,
          journal := (s.journal ++
            [⟨st.winnerId, st.amount, .transfer, .completed, some auctionId⟩,
             ⟨st.sellerId, st.amount, .transfer, .completed, some auctionId⟩]) }) := by
    simp [approveSettlement, hfs, hpend, hcw, hwa, hsa, settleIfBothApproved]
  rw [heq]
  refine ⟨rfl, ?_, rfl, ?_⟩
  · exact map_eq_self_of_no_match s.holds _ _ hnohold
  · have hkey1 := find?_updateFirstSettlement s.settlements auctionId
      (fun x => { x with winnerApprovedAt := some now }) (fun x => rfl)
    have hkey2 := find?_updateFirstSettlement
      (updateFirstSettlement s.settlements auctionId
        (fun x => { x with winnerApprovedAt := some now })) auctionId
      (fun x => { x with status := SettlementStatus.completed }) (fun x => rfl)
    show (updateFirstSettlement (updateFirstSettlement s.settlements auctionId
        (fun x => { x with winnerApprovedAt := some now })) auctionId
        (fun x => { x with status := .completed })).find?
        (fun x => x.auctionId == auctionId) = _
    rw [hkey2, hkey1, hfs']
    rfl

theorem approveSettlement_completes_without_hold_witness :
    (approveSettlement stateC10 20 "wendy" "a10").1 = .ok true .completed ∧
    (approveSettlement stateC10 20 "wendy" "a10").2.holds = stateC10.holds ∧
    (approveSettlement stateC10 20 "wendy" "a10").2.users =
      creditUser stateC10.users "sam" 700 ∧
    findSettlement (approveSettlement stateC10 20 "wendy" "a10").2 "a10" =
      some ⟨"a10", "wendy", "sam", 700, some 20, some 5, .completed⟩ :=
  approveSettlement_completes_without_hold stateC10 20 "wendy" "a10"
    ⟨"a10", "wendy", "sam", 700, none, some 5, .pending⟩ 5
    (by decide) (by decide) (by decide) (by decide) (by decide) (by decide)

theorem deposit_conflict_without_completed :
    (stateC5.journal.filter (fun e =>
      e.kind == TxKind.deposit && e.status == TxStatus.completed &&
        e.reference == some "X")).length = 0 ∧
    (deposit stateC5 "u" 50 "X" "G").1 = .conflict ∧
    (deposit stateC5 "u" 50 "X" "G").2 = stateC5 := by
  refine ⟨?_, ?_, ?_⟩ <;> decide

/-- C5 amended: `Deposit` fails with Conflict, leaving the state unchanged,
exactly when *any* DEPOSIT journal entry with the same reference exists,
regardless of its status; otherwise it credits the balance and appends one
COMPLETED DEPOSIT entry carrying the reference.  Two deposits with identical
references still produce exactly one balance change: the repeat always
fails with Conflict and changes nothing. -/
theorem deposit_conflict_iff (s : State) (userId : String) (amount : Int)
    (upiRef genRef : String) (hpos : 0 < amount) (href : upiRef ≠ "") :
    ((deposit s userId amount upiRef genRef).1 = .conflict ↔
      ∃ e ∈ s.journal, e.kind = .deposit ∧ e.reference = some upiRef) ∧
    ((deposit s userId amount upiRef genRef).1 = .conflict →
      (deposit s userId amount upiRef genRef).2 = s) ∧
    ((deposit s userId amount upiRef genRef).1 = .ok →
      (deposit s userId amount upiRef genRef).2.users = creditUser s.users userId amount ∧
      (deposit s userId amount upiRef genRef).2.journal =
        s.journal ++ [⟨userId, amount, .deposit, .completed, some upiRef⟩]) ∧
    deposit (deposit s userId amount upiRef genRef).2 userId amount upiRef genRef =
      (.conflict, (deposit s userId amount upiRef genRef).2) := by
  have hnle : ¬ amount ≤ 0 := by omega
  have hrefeq : (if upiRef = "" then genRef else upiRef) = upiRef := if_neg href
  by_cases hany : s.journal.any
      (fun e => e.reference == some upiRef && e.kind == TxKind.deposit) = true
  · have h1 : deposit s userId amount upiRef genRef = (.conflict, s) := by
      simp only [deposit, hnle, if_false, hrefeq]
      rw [if_pos hany]
    obtain ⟨e, he, hpe⟩ := List.any_eq_true.mp hany
    have hk : e.kind = .deposit := by
      have := (Bool.and_eq_true _ _).mp hpe
      simpa using this.2
    have hr : e.reference = some upiRef := by
      have := (Bool.and_eq_true _ _).mp hpe
      simpa using this.1
    rw [h1]
    exact ⟨⟨fun _ => ⟨e, he, hk, hr⟩, fun _ => rfl⟩, fun _ => rfl,
      fun h => DepositResult.noConfusion h, h1⟩
  · have h1 : deposit s userId amount upiRef genRef =
        (.ok,
          { s with
            users := creditUser s.users userId amount,
            journal := (s.journal ++
              [⟨userId, amount, .deposit, .completed, some upiRef⟩]) }) := by
      simp only [deposit, hnle, if_false, hrefeq]
      rw [if_neg hany]
    have hnone : ¬ ∃ e ∈ s.journal, e.kind = .deposit ∧ e.reference = some upiRef := by
      rintro ⟨e, he, hk, hr⟩
      exact hany (List.any_eq_true.mpr ⟨e, he, by simp [hk, hr]⟩)
    have hany2 : ((s.journal ++
        [(⟨userId, amount, .deposit, .completed, some upiRef⟩ : TxEntry)]).any
        (fun e => e.reference == some upiRef && e.kind == TxKind.deposit)) = true := by
      simp
    rw [h1]
    refine ⟨⟨fun h => DepositResult.noConfusion h, fun h => absurd h hnone⟩,
      fun h => DepositResult.noConfusion h, fun _ => ⟨rfl, rfl⟩, ?_⟩
    simp only [deposit, hnle, if_false, hrefeq]
    rw [if_pos hany2]

theorem deposit_conflict_iff_witness :
    (deposit stateC5w "u" 100 "X" "G").1 = .ok ∧
    (deposit stateC5w "u" 100 "X" "G").2.users = creditUser stateC5w.users "u" 100 ∧
    deposit (deposit stateC5w "u" 100 "X" "G").2 "u" 100 "X" "G" =
      (.conflict, (deposit stateC5w "u" 100 "X" "G").2) := by
  have h := deposit_conflict_iff stateC5w "u" 100 "X" "G" (by decide) (by decide)
  have hok : (deposit stateC5w "u" 100 "X" "G").1 = .ok := by decide
  exact ⟨hok, (h.2.2.1 hok).1, h.2.2.2⟩

/-! ## Preservation machinery for the hold-table invariant -/

theorem softHardCount_append (l1 l2 : List Hold) (a u : String) :
    softHardCount (l1 ++ l2) a u = softHardCount l1 a u + softHardCount l2 a u :=
  List.countP_append _ _ _

theorem holdUniq_map (l : List Hold) (g : Hold → Hold)
    (hkey : ∀ h, (g h).auctionId = h.auctionId ∧ (g h).userId = h.userId)
    (hsh : ∀ h, ((g h).status == HoldStatus.soft || (g h).status == HoldStatus.hard) = true →
      (h.status == HoldStatus.soft || h.status == HoldStatus.hard) = true)
    (hu : HoldUniq l) : HoldUniq (l.map g) := by
  intro h' hmem
  obtain ⟨h₀, h₀mem, rfl⟩ := List.mem_map.mp hmem
  rw [(hkey h₀).1, (hkey h₀).2]
  have hle : softHardCount (l.map g) h₀.auctionId h₀.userId ≤
      softHardCount l h₀.auctionId h₀.userId := by
    unfold softHardCount
    rw [List.countP_map]
    apply List.countP_mono_left
    intro x _ hpx
    simp only [Function.comp] at hpx
    rw [(hkey x).1, (hkey x).2] at hpx
    obtain ⟨hk, hs⟩ := (Bool.and_eq_true _ _).mp hpx
    exact (Bool.and_eq_true _ _).mpr ⟨hk, hsh x hs⟩
  exact le_trans hle (hu h₀ h₀mem)

theorem softOwnerOk_map_eq (auctions : List Auction) (f : Auction → Auction)
    (hid : ∀ a, (f a).id = a.id) (hbid : ∀ a, (f a).highestBidderId = a.highestBidderId)
    (h : Hold) :
    softOwnerOk (auctions.map f) h = softOwnerOk auctions h := by
  unfold softOwnerOk
  rw [find?_map_of_pred_eq auctions f _ (fun x => by rw [hid])]
  cases auctions.find? (fun a => a.id == h.auctionId) with
  | none => rfl
  | some a => simp [hbid a]

theorem hardEndedOk_map_eq (auctions : List Auction) (f : Auction → Auction)
    (hid : ∀ a, (f a).id = a.id) (hstat : ∀ a, (f a).status = a.status)
    (h : Hold) :
    hardEndedOk (auctions.map f) h = hardEndedOk auctions h := by
  unfold hardEndedOk
  rw [find?_map_of_pred_eq auctions f _ (fun x => by rw [hid])]
  cases auctions.find? (fun a => a.id == h.auctionId) with
  | none => rfl
  | some a => simp [hstat a]

/-- Marking one auction ENDED can only help the "HARD implies ENDED"
condition. -/
theorem hardEndedOk_map_ended (auctions : List Auction) (aid : String) (h : Hold)
    (hold : hardEndedOk auctions h = true) :
    hardEndedOk (auctions.map (fun x =>
      if x.id == aid then { x with status := .ended } else x)) h = true := by
  unfold hardEndedOk at hold ⊢
  rw [find?_map_of_pred_eq auctions _ _ (fun x => by split <;> rfl)]
  cases hfind : auctions.find? (fun a => a.id == h.auctionId) with
  | none => rw [hfind] at hold; exact absurd hold (by simp)
  | some a =>
    rw [hfind] at hold
    show ((if a.id == aid then { a with status := AuctionStatus.ended } else a).status ==
      AuctionStatus.ended) = true
    split
    · rfl
    · exact hold

/-- On an ACTIVE auction, a user other than the recorded highest bidder has
no non-terminal hold: SOFT would make them the highest bidder, HARD would
make the auction ENDED. -/
theorem softHardCount_zero_of_not_owner (auctions : List Auction) (holds : List Hold)
    (aid userId : String) (a : Auction)
    (hfa : auctions.find? (fun x => x.id == aid) = some a)
    (hact : a.status = AuctionStatus.active)
    (hnotme : a.highestBidderId ≠ some userId)
    (hso : SoftOwned auctions holds) (hhe : HardEnded auctions holds) :
    softHardCount holds aid userId = 0 := by
  unfold softHardCount
  rw [List.countP_eq_zero]
  intro h hm hp
  obtain ⟨hk, hs⟩ := (Bool.and_eq_true _ _).mp hp
  obtain ⟨hka, hku⟩ := (Bool.and_eq_true _ _).mp hk
  have hka' : h.auctionId = aid := by simpa using hka
  have hku' : h.userId = userId := by simpa using hku
  rcases (Bool.or_eq_true _ _).mp hs with hsoft | hhard
  · have hsoft' : h.status = .soft := by simpa using hsoft
    have hown := hso h hm hsoft'
    unfold softOwnerOk at hown
    rw [hka', hfa] at hown
    have : a.highestBidderId = some h.userId := by simpa using hown
    rw [hku'] at this
    exact hnotme this
  · have hhard' : h.status = .hard := by simpa using hhard
    have hend := hhe h hm hhard'
    unfold hardEndedOk at hend
    rw [hka', hfa] at hend
    have : a.status = AuctionStatus.ended := by simpa using hend
    rw [hact] at this
    exact absurd this (by decide)

theorem softHardCount_single_soft (aid userId : String) (amount : Int) (x y : String) :
    softHardCount [⟨aid, userId, amount, HoldStatus.soft⟩] x y =
      if aid = x ∧ userId = y then 1 else 0 := by
  unfold softHardCount
  rw [List.countP_cons, List.countP_nil]
  by_cases hxy : aid = x ∧ userId = y
  · rw [if_pos hxy]
    simp [hxy.1, hxy.2]
  · rw [if_neg hxy]
    have hfalse : ((⟨aid, userId, amount, HoldStatus.soft⟩ : Hold).auctionId == x &&
        (⟨aid, userId, amount, HoldStatus.soft⟩ : Hold).userId == y &&
        ((⟨aid, userId, amount, HoldStatus.soft⟩ : Hold).status == HoldStatus.soft ||
          (⟨aid, userId, amount, HoldStatus.soft⟩ : Hold).status == HoldStatus.hard)) =
        false := by
      rcases not_and_or.mp hxy with h | h <;> simp [h]
    rw [hfalse]
    rfl

theorem softHardCount_release_le (holds : List Hold) (aid prev x y : String) :
    softHardCount (releasePrevHolds holds aid prev) x y ≤ softHardCount holds x y := by
  unfold softHardCount releasePrevHolds
  rw [List.countP_map]
  apply List.countP_mono_left
  intro h _ hp
  simp only [Function.comp] at hp
  by_cases hrel : (h.auctionId == aid && h.userId == prev && h.status == HoldStatus.soft) = true
  · rw [if_pos hrel] at hp
    obtain ⟨hk, hs⟩ := (Bool.and_eq_true _ _).mp hp
    simp at hs
  · rw [if_neg hrel] at hp
    exact hp

/-- Appending a fresh SOFT hold for a pair that currently has no non-terminal
hold keeps the at-most-one invariant, for any hold table `X` that only
shrinks counts relative to `holds` and whose rows keep their keys. -/
theorem holdUniq_append_soft (holds X : List Hold) (aid userId : String) (amount : Int)
    (hle : ∀ x y, softHardCount X x y ≤ softHardCount holds x y)
    (hmem : ∀ h ∈ X, ∃ h₀ ∈ holds, h.auctionId = h₀.auctionId ∧ h.userId = h₀.userId)
    (hzero : softHardCount holds aid userId = 0)
    (hu : HoldUniq holds) :
    HoldUniq (X ++ [⟨aid, userId, amount, HoldStatus.soft⟩]) := by
  intro h hm
  rw [softHardCount_append, softHardCount_single_soft]
  rcases List.mem_append.mp hm with hm | hm
  · obtain ⟨h₀, h₀m, hkeys⟩ := hmem h hm
    by_cases hk : h.auctionId = aid ∧ h.userId = userId
    · rw [if_pos ⟨hk.1.symm, hk.2.symm⟩]
      have : softHardCount X h.auctionId h.userId = 0 := by
        rw [hk.1, hk.2]
        exact Nat.le_zero.mp (hzero ▸ hle aid userId)
      omega
    · rw [if_neg (by rintro ⟨h1, h2⟩; exact hk ⟨h1.symm, h2.symm⟩)]
      have h1 : softHardCount X h.auctionId h.userId ≤
          softHardCount holds h.auctionId h.userId := hle _ _
      have h2 : softHardCount holds h.auctionId h.userId ≤ 1 := by
        rw [hkeys.1, hkeys.2]
        exact hu h₀ h₀m
      omega
  · have hh : h = ⟨aid, userId, amount, HoldStatus.soft⟩ := by simpa using hm
    rw [hh]
    show softHardCount X aid userId + (if aid = aid ∧ userId = userId then 1 else 0) ≤ 1
    rw [if_pos ⟨rfl, rfl⟩]
    have : softHardCount X aid userId = 0 :=
      Nat.le_zero.mp (hzero ▸ hle aid userId)
    omega

/-- After the auction row advances to the new bidder, SOFT ownership holds
for a hold table whose SOFT rows all live on other auctions, plus the new
bidder's fresh SOFT hold. -/
theorem softOwned_after_advance (auctions : List Auction) (X : List Hold)
    (aid userId : String) (amount : Int) (a : Auction)
    (hfa : auctions.find? (fun x => x.id == aid) = some a)
    (hX : ∀ h ∈ X, h.status = HoldStatus.soft →
      softOwnerOk auctions h = true ∧ h.auctionId ≠ aid) :
    SoftOwned (auctions.map (advanceAuction aid userId amount))
      (X ++ [⟨aid, userId, amount, HoldStatus.soft⟩]) := by
  have haid : (a.id == aid) = true := by
    have h0 := List.find?_some hfa
    exact h0
  intro h hm hsoft
  rcases List.mem_append.mp hm with hm | hm
  · obtain ⟨hok, hne⟩ := hX h hm hsoft
    unfold softOwnerOk at hok ⊢
    rw [find?_map_of_pred_eq auctions _ _ (fun x => by rw [advanceAuction_id])]
    cases hfind : auctions.find? (fun x => x.id == h.auctionId) with
    | none => rw [hfind] at hok; exact absurd hok (by simp)
    | some a' =>
      rw [hfind] at hok
      have ha'id : a'.id = h.auctionId := by simpa using List.find?_some hfind
      have hadv : advanceAuction aid userId amount a' = a' := by
        unfold advanceAuction
        rw [if_neg (by rw [ha'id]; simpa using hne)]
      simp only [Option.map_some', hadv]
      exact hok
  · have hh : h = ⟨aid, userId, amount, HoldStatus.soft⟩ := by simpa using hm
    rw [hh]
    unfold softOwnerOk
    rw [show ((⟨aid, userId, amount, HoldStatus.soft⟩ : Hold).auctionId) = aid from rfl]
    rw [find?_map_of_pred_eq auctions _ _ (fun x => by rw [advanceAuction_id])]
    rw [hfa]
    simp only [Option.map_some']
    show ((advanceAuction aid userId amount a).highestBidderId ==
      some (⟨aid, userId, amount, HoldStatus.soft⟩ : Hold).userId) = true
    unfold advanceAuction
    rw [if_pos haid]
    exact beq_self_eq_true (some userId)

/-- Advancing the auction row keeps "HARD implies ENDED" (no status change),
and the fresh hold is SOFT. -/
theorem hardEnded_after_advance (auctions : List Auction) (X : List Hold)
    (aid userId : String) (amount : Int)
    (hX : ∀ h ∈ X, h.status = HoldStatus.hard → hardEndedOk auctions h = true) :
    HardEnded (auctions.map (advanceAuction aid userId amount))
      (X ++ [⟨aid, userId, amount, HoldStatus.soft⟩]) := by
  intro h hm hhard
  rcases List.mem_append.mp hm with hm | hm
  · rw [hardEndedOk_map_eq auctions _ (fun x => advanceAuction_id aid userId amount x)
      (fun x => by unfold advanceAuction; split <;> rfl)]
    exact hX h hm hhard
  · have hh : h = ⟨aid, userId, amount, HoldStatus.soft⟩ := by simpa using hm
    rw [hh] at hhard
    exact HoldStatus.noConfusion hhard

theorem holdInv_of_tables (s s' : State) (hh : s'.holds = s.holds)
    (ha : s'.auctions = s.auctions) (h : HoldInv s) : HoldInv s' := by
  unfold HoldInv at h ⊢
  rw [hh, ha]
  exact h

/-- Operation `PlaceBid` preserves the hold-table invariant as long as the caller is
not already the auction's highest bidder. -/
theorem holdInv_placeBid (s : State) (now : Int) (userId aid : String) (amount : Int)
    (hinv : HoldInv s)
    (hns : (match findAuction s aid with
      | some a => a.highestBidderId == some userId
      | none => false) = false) :
    HoldInv (placeBid s now userId aid amount).2 := by
  obtain ⟨hu, hso, hhe⟩ := hinv
  by_cases h0 : amount ≤ 0
  · have hst : (placeBid s now userId aid amount).2 = s := by simp [placeBid, h0]
    rw [hst]; exact ⟨hu, hso, hhe⟩
  · cases hfa : findAuction s aid with
    | none =>
      have hst : (placeBid s now userId aid amount).2 = s := by simp [placeBid, h0, hfa]
      rw [hst]; exact ⟨hu, hso, hhe⟩
    | some a =>
      have hfa' : s.auctions.find? (fun x => x.id == aid) = some a := hfa
      have hnotme : a.highestBidderId ≠ some userId := by
        rw [hfa] at hns; simpa using hns
      by_cases hcl : (a.status ≠ AuctionStatus.active ∨ a.endTime < now)
      · have hst : (placeBid s now userId aid amount).2 = s := by
          simp [placeBid, h0, hfa, hcl]
        rw [hst]; exact ⟨hu, hso, hhe⟩
      · have hact : a.status = AuctionStatus.active := not_not.mp (not_or.mp hcl).1
        by_cases hlow : amount ≤ a.currentHighBid
        · have hst : (placeBid s now userId aid amount).2 = s := by
            simp [placeBid, h0, hfa, hcl, hlow]
          rw [hst]; exact ⟨hu, hso, hhe⟩
        · cases hfu : findUser s userId with
          | none =>
            have hst : (placeBid s now userId aid amount).2 = s := by
              simp [placeBid, h0, hfa, hcl, hlow, hfu]
            rw [hst]; exact ⟨hu, hso, hhe⟩
          | some u =>
            by_cases hbal : u.balance < amount
            · have hst : (placeBid s now userId aid amount).2 = s := by
                simp [placeBid, h0, hfa, hcl, hlow, hfu, hbal]
              rw [hst]; exact ⟨hu, hso, hhe⟩
            · have hzero := softHardCount_zero_of_not_owner s.auctions s.holds aid userId a
                hfa' hact hnotme hso hhe
              cases hp : a.highestBidderId with
              | none =>
                rw [placeBid_commit_noRelease s now userId aid amount a u hfa h0 hcl hlow
                  hfu hbal (Or.inl hp)]
                refine ⟨?_, ?_, ?_⟩
                · exact holdUniq_append_soft s.holds s.holds aid userId amount
                    (fun x y => le_refl _) (fun h hm => ⟨h, hm, rfl, rfl⟩) hzero hu
                · apply softOwned_after_advance s.auctions s.holds aid userId amount a hfa'
                  intro h hm hsoft
                  refine ⟨hso h hm hsoft, ?_⟩
                  intro haid
                  have hok := hso h hm hsoft
                  unfold softOwnerOk at hok
                  rw [haid, hfa'] at hok
                  have hok2 : (a.highestBidderId == some h.userId) = true := hok
                  rw [hp] at hok2
                  simp at hok2
                · exact hardEnded_after_advance s.auctions s.holds aid userId amount hhe
              | some prev =>
                have hne : prev ≠ userId := by
                  intro he
                  rw [he] at hp
                  exact hnotme hp
                rw [placeBid_commit_release s now userId aid amount a u prev hfa h0 hcl hlow
                  hfu hbal hp hne]
                refine ⟨?_, ?_, ?_⟩
                · apply holdUniq_append_soft s.holds (releasePrevHolds s.holds aid prev)
                    aid userId amount (fun x y => softHardCount_release_le s.holds aid prev x y)
                    ?_ hzero hu
                  intro h hm
                  unfold releasePrevHolds at hm
                  obtain ⟨h₀, h₀m, rfl⟩ := List.mem_map.mp hm
                  exact ⟨h₀, h₀m, by split <;> rfl, by split <;> rfl⟩
                · apply softOwned_after_advance s.auctions _ aid userId amount a hfa'
                  intro h hm hsoft
                  unfold releasePrevHolds at hm
                  obtain ⟨h₀, h₀m, rfl⟩ := List.mem_map.mp hm
                  by_cases hrel : (h₀.auctionId == aid && h₀.userId == prev &&
                      h₀.status == HoldStatus.soft) = true
                  · rw [if_pos hrel] at hsoft
                    exact absurd hsoft (by intro hc; exact HoldStatus.noConfusion hc)
                  · rw [if_neg hrel] at hsoft ⊢
                    refine ⟨hso h₀ h₀m hsoft, ?_⟩
                    intro haid
                    have hok := hso h₀ h₀m hsoft
                    unfold softOwnerOk at hok
                    rw [haid, hfa'] at hok
                    have hok2 : (a.highestBidderId == some h₀.userId) = true := hok
                    rw [hp] at hok2
                    have huid : h₀.userId = prev := by
                      have h3 := beq_iff_eq.mp hok2
                      exact (Option.some.inj h3).symm
                    exact hrel (by simp [haid, huid, hsoft])
                · apply hardEnded_after_advance s.auctions _ aid userId amount
                  intro h hm hhard
                  unfold releasePrevHolds at hm
                  obtain ⟨h₀, h₀m, rfl⟩ := List.mem_map.mp hm
                  by_cases hrel : (h₀.auctionId == aid && h₀.userId == prev &&
                      h₀.status == HoldStatus.soft) = true
                  · rw [if_pos hrel] at hhard
                    exact absurd hhard (by intro hc; exact HoldStatus.noConfusion hc)
                  · rw [if_neg hrel] at hhard ⊢
                    exact hhe h₀ h₀m hhard

/-- The lazy finalizer preserves the hold-table invariant. -/
theorem holdInv_finalize (s : State) (now : Int) (aid : String) (hinv : HoldInv s) :
    HoldInv (endAuctionIfExpired s now aid).2 := by
  obtain ⟨hu, hso, hhe⟩ := hinv
  cases hfa : findAuction s aid with
  | none =>
    have hst : (endAuctionIfExpired s now aid).2 = s := by simp [endAuctionIfExpired, hfa]
    rw [hst]; exact ⟨hu, hso, hhe⟩
  | some a =>
    have hfa' : s.auctions.find? (fun x => x.id == aid) = some a := hfa
    by_cases hcond : (a.status ≠ AuctionStatus.active ∨ ¬ a.endTime < now)
    · have hst : (endAuctionIfExpired s now aid).2 = s := by
        simp only [endAuctionIfExpired, hfa]
        rw [if_pos hcond]
      rw [hst]; exact ⟨hu, hso, hhe⟩
    · have hact : a.status = AuctionStatus.active := not_not.mp (not_or.mp hcond).1
      have htime : a.endTime < now := not_not.mp (not_or.mp hcond).2
      cases hp : a.highestBidderId with
      | none =>
        have hst : (endAuctionIfExpired s now aid).2 =
            { s with auctions := s.auctions.map (fun x =>
                if x.id == aid then { x with status := .ended } else x) } := by
          simp [endAuctionIfExpired, hfa, hact, htime, hp]
        rw [hst]
        refine ⟨hu, ?_, ?_⟩
        · intro h hm hsoft
          rw [softOwnerOk_map_eq s.auctions _ (fun x => by split <;> rfl)
            (fun x => by split <;> rfl) h]
          exact hso h hm hsoft
        · intro h hm hhard
          exact hardEndedOk_map_ended s.auctions aid h (hhe h hm hhard)
      | some w =>
        have hholds : (endAuctionIfExpired s now aid).2.holds =
            (s.holds.map (fun h =>
              if h.auctionId == aid && h.userId == w && h.status == HoldStatus.soft then
                { h with status := .hard }
              else h)).map (fun h =>
              if h.auctionId == aid && h.status == HoldStatus.soft && h.userId != w then
                { h with status := .released }
              else h) := by
          simp only [endAuctionIfExpired, hfa]
          rw [if_neg hcond]
          simp only [hp]
          split <;> rfl
        have hauctions : (endAuctionIfExpired s now aid).2.auctions =
            s.auctions.map (fun x =>
              if x.id == aid then { x with status := AuctionStatus.ended } else x) := by
          simp only [endAuctionIfExpired, hfa]
          rw [if_neg hcond]
          simp only [hp]
          split <;> rfl
        unfold HoldInv
        rw [hholds, hauctions]
        refine ⟨?_, ?_, ?_⟩
        · apply holdUniq_map
          · intro h; split <;> exact ⟨rfl, rfl⟩
          · intro h hs
            by_cases hpred : (h.auctionId == aid && h.status == HoldStatus.soft &&
                h.userId != w) = true
            · rw [if_pos hpred] at hs
              simp at hs
            · rwa [if_neg hpred] at hs
          · apply holdUniq_map _ _ ?_ ?_ hu
            · intro h; split <;> exact ⟨rfl, rfl⟩
            · intro h hs
              by_cases hpred : (h.auctionId == aid && h.userId == w &&
                  h.status == HoldStatus.soft) = true
              · obtain ⟨_, hsoft⟩ := (Bool.and_eq_true _ _).mp hpred
                exact (Bool.or_eq_true _ _).mpr (Or.inl hsoft)
              · rwa [if_neg hpred] at hs
        · intro h hm hsoft
          obtain ⟨h', h'm, rfl⟩ := List.mem_map.mp hm
          obtain ⟨h₀, h₀m, rfl⟩ := List.mem_map.mp h'm
          by_cases hpred1 : (h₀.auctionId == aid && h₀.userId == w &&
              h₀.status == HoldStatus.soft) = true
          · rw [if_pos hpred1] at hsoft ⊢
            by_cases hpred2 : ((⟨h₀.auctionId, h₀.userId, h₀.amount, HoldStatus.hard⟩ :
                Hold).auctionId == aid &&
                (⟨h₀.auctionId, h₀.userId, h₀.amount, HoldStatus.hard⟩ : Hold).status ==
                  HoldStatus.soft &&
                (⟨h₀.auctionId, h₀.userId, h₀.amount, HoldStatus.hard⟩ : Hold).userId != w) =
                true
            · obtain ⟨hk, _⟩ := (Bool.and_eq_true _ _).mp hpred2
              obtain ⟨_, hs2⟩ := (Bool.and_eq_true _ _).mp hk
              simp at hs2
            · rw [if_neg hpred2] at hsoft
              exact absurd hsoft (by intro hc; exact HoldStatus.noConfusion hc)
          · rw [if_neg hpred1] at hsoft ⊢
            by_cases hpred2 : (h₀.auctionId == aid && h₀.status == HoldStatus.soft &&
                h₀.userId != w) = true
            · rw [if_pos hpred2] at hsoft
              exact absurd hsoft (by intro hc; exact HoldStatus.noConfusion hc)
            · rw [if_neg hpred2] at hsoft ⊢
              rw [softOwnerOk_map_eq s.auctions _ (fun x => by split <;> rfl)
                (fun x => by split <;> rfl) h₀]
              exact hso h₀ h₀m hsoft
        · intro h hm hhard
          obtain ⟨h', h'm, rfl⟩ := List.mem_map.mp hm
          obtain ⟨h₀, h₀m, rfl⟩ := List.mem_map.mp h'm
          by_cases hpred1 : (h₀.auctionId == aid && h₀.userId == w &&
              h₀.status == HoldStatus.soft) = true
          · rw [if_pos hpred1] at hhard ⊢
            have haidh : h₀.auctionId = aid := by
              obtain ⟨hk, _⟩ := (Bool.and_eq_true _ _).mp hpred1
              obtain ⟨hka, _⟩ := (Bool.and_eq_true _ _).mp hk
              simpa using hka
            by_cases hpred2 : ((⟨h₀.auctionId, h₀.userId, h₀.amount, HoldStatus.hard⟩ :
                Hold).auctionId == aid &&
                (⟨h₀.auctionId, h₀.userId, h₀.amount, HoldStatus.hard⟩ : Hold).status ==
                  HoldStatus.soft &&
                (⟨h₀.auctionId, h₀.userId, h₀.amount, HoldStatus.hard⟩ : Hold).userId != w) =
                true
            · obtain ⟨hk, _⟩ := (Bool.and_eq_true _ _).mp hpred2
              obtain ⟨_, hs2⟩ := (Bool.and_eq_true _ _).mp hk
              simp at hs2
            · rw [if_neg hpred2]
              unfold hardEndedOk
              rw [show ((⟨h₀.auctionId, h₀.userId, h₀.amount, HoldStatus.hard⟩ :
                  Hold).auctionId) = h₀.auctionId from rfl]
              rw [haidh]
              rw [find?_map_of_pred_eq s.auctions _ _ (fun x => by split <;> rfl), hfa']
              have haid : (a.id == aid) = true := by
                have h9 := List.find?_some hfa'
                exact h9
              simp only [Option.map_some']
              show ((if a.id == aid then { a with status := AuctionStatus.ended } else a).status ==
                AuctionStatus.ended) = true
              rw [if_pos haid]
              rfl
          · rw [if_neg hpred1] at hhard ⊢
            by_cases hpred2 : (h₀.auctionId == aid && h₀.status == HoldStatus.soft &&
                h₀.userId != w) = true
            · rw [if_pos hpred2] at hhard
              exact absurd hhard (by intro hc; exact HoldStatus.noConfusion hc)
            · rw [if_neg hpred2] at hhard ⊢
              exact hardEndedOk_map_ended s.auctions aid h₀ (hhe h₀ h₀m hhard)

theorem holdInv_settle (s1 : State) (st : Settlement) (aid : String) (b : Bool)
    (hinv1 : HoldUniq s1.holds ∧ SoftOwned s1.auctions s1.holds ∧
      HardEnded s1.auctions s1.holds) :
    HoldInv (settleIfBothApproved s1 st aid b).2 := by
  obtain ⟨hu, hso, hhe⟩ := hinv1
  cases b
  · exact ⟨hu, hso, hhe⟩
  · unfold settleIfBothApproved
    rw [if_pos rfl]
    refine ⟨?_, ?_, ?_⟩
    · apply holdUniq_map _ _ ?_ ?_ hu
      · intro h; split <;> exact ⟨rfl, rfl⟩
      · intro h hs
        by_cases hpred : (h.auctionId == aid && h.userId == st.winnerId &&
            h.status == HoldStatus.hard) = true
        · rw [if_pos hpred] at hs
          simp at hs
        · rwa [if_neg hpred] at hs
    · intro h hm hsoft
      obtain ⟨h₀, h₀m, rfl⟩ := List.mem_map.mp hm
      by_cases hpred : (h₀.auctionId == aid && h₀.userId == st.winnerId &&
          h₀.status == HoldStatus.hard) = true
      · rw [if_pos hpred] at hsoft
        exact absurd hsoft (by intro hc; exact HoldStatus.noConfusion hc)
      · rw [if_neg hpred] at hsoft ⊢
        exact hso h₀ h₀m hsoft
    · intro h hm hhard
      obtain ⟨h₀, h₀m, rfl⟩ := List.mem_map.mp hm
      by_cases hpred : (h₀.auctionId == aid && h₀.userId == st.winnerId &&
          h₀.status == HoldStatus.hard) = true
      · rw [if_pos hpred] at hhard
        exact absurd hhard (by intro hc; exact HoldStatus.noConfusion hc)
      · rw [if_neg hpred] at hhard ⊢
        exact hhe h₀ h₀m hhard

/-- Operation `ApproveSettlement` preserves the hold-table invariant. -/
theorem holdInv_approve (s : State) (now : Int) (c aid : String) (hinv : HoldInv s) :
    HoldInv (approveSettlement s now c aid).2 := by
  obtain ⟨hu, hso, hhe⟩ := hinv
  cases hfs : findSettlement s aid with
  | none =>
    have hst : (approveSettlement s now c aid).2 = s := by simp [approveSettlement, hfs]
    rw [hst]; exact ⟨hu, hso, hhe⟩
  | some st =>
    simp only [approveSettlement, hfs]
    by_cases h1 : st.status = SettlementStatus.completed
    · rw [if_pos h1]; exact ⟨hu, hso, hhe⟩
    · rw [if_neg h1]
      by_cases h2 : c = st.winnerId
      · rw [if_pos h2]
        by_cases h3 : st.winnerApprovedAt ≠ none
        · rw [if_pos h3]; exact ⟨hu, hso, hhe⟩
        · rw [if_neg h3]
          exact holdInv_settle _ st aid _ ⟨hu, hso, hhe⟩
      · rw [if_neg h2]
        by_cases h4 : c = st.sellerId
        · rw [if_pos h4]
          by_cases h5 : st.sellerApprovedAt ≠ none
          · rw [if_pos h5]; exact ⟨hu, hso, hhe⟩
          · rw [if_neg h5]
            exact holdInv_settle _ st aid _ ⟨hu, hso, hhe⟩
        · rw [if_neg h4]; exact ⟨hu, hso, hhe⟩

/-- Operation `Deposit` touches no hold or auction row. -/
theorem holdInv_deposit (s : State) (u : String) (amt : Int) (r g : String)
    (hinv : HoldInv s) : HoldInv (deposit s u amt r g).2 := by
  have h1 : (deposit s u amt r g).2.holds = s.holds ∧
      (deposit s u amt r g).2.auctions = s.auctions := by
    simp only [deposit]
    repeat' split
    all_goals exact ⟨rfl, rfl⟩
  exact holdInv_of_tables s _ h1.1 h1.2 hinv

/-- Operation `Withdraw` touches no hold or auction row. -/
theorem holdInv_withdraw (s : State) (u : String) (amt : Int) (upi : String)
    (hinv : HoldInv s) : HoldInv (withdraw s u amt upi).2 := by
  have h1 : (withdraw s u amt upi).2.holds = s.holds ∧
      (withdraw s u amt upi).2.auctions = s.auctions := by
    simp only [withdraw]
    repeat' split
    all_goals exact ⟨rfl, rfl⟩
  exact holdInv_of_tables s _ h1.1 h1.2 hinv

theorem selfOutbid_two_soft_holds :
    (placeBid (placeBid stateC2 0 "u" "a2" 200).2 0 "u" "a2" 300).1 = .success 300 ∧
    softHardCount (placeBid (placeBid stateC2 0 "u" "a2" 200).2 0 "u" "a2" 300).2.holds
      "a2" "u" = 2 := by
  refine ⟨?_, ?_⟩ <;> decide

/-- C2 amended: after every committed operation that is *not* a raise by the
user already recorded as highest bidder, every (auction, user) pair has at
most one hold in {SOFT, HARD}; the proof maintains the inductive hold-table
invariant (uniqueness, SOFT held by the highest bidder, HARD only on ENDED
auctions).  A self-outbid violates the property, as the counterexample
shows. -/
theorem holdInv_preserved (s : State) (op : Op) (hinv : HoldInv s)
    (hself : isSelfOutbid s op = false) :
    HoldInv (applyOp s op) ∧
    ∀ h ∈ (applyOp s op).holds,
      softHardCount (applyOp s op).holds h.auctionId h.userId ≤ 1 := by
  have hmain : HoldInv (applyOp s op) := by
    cases op with
    | bid now u aid amt => exact holdInv_placeBid s now u aid amt hinv hself
    | finalize now aid => exact holdInv_finalize s now aid hinv
    | approve now c aid => exact holdInv_approve s now c aid hinv
    | deposit u amt r g => exact holdInv_deposit s u amt r g hinv
    | withdraw u amt upi => exact holdInv_withdraw s u amt upi hinv
  exact ⟨hmain, hmain.1⟩

theorem holdInv_preserved_witness :
    HoldInv (applyOp stateC2w (Op.bid 0 "bob" "a2w" 2000)) :=
  (holdInv_preserved stateC2w (Op.bid 0 "bob" "a2w" 2000)
    (by unfold HoldInv HoldUniq SoftOwned HardEnded; refine ⟨?_, ?_, ?_⟩ <;> decide)
    (by decide)).1

theorem usersNodup_map (users : List User) (f : User → User)
    (hf : ∀ u, (f u).id = u.id) (h : UsersNodup users) : UsersNodup (users.map f) := by
  unfold UsersNodup at h ⊢
  rw [List.map_map]
  rw [show ((fun u => u.id) ∘ f) = (fun u => u.id) from funext fun u => hf u]
  exact h

theorem usersNodup_creditUser (users : List User) (uid : String) (amt : Int)
    (h : UsersNodup users) : UsersNodup (creditUser users uid amt) :=
  usersNodup_map users _ (fun u => by split <;> rfl) h

theorem usersNodup_debitUser (users : List User) (uid : String) (amt : Int)
    (h : UsersNodup users) : UsersNodup (debitUser users uid amt) :=
  usersNodup_map users _ (fun u => by split <;> rfl) h

theorem balancesNonneg_creditUser (users : List User) (uid : String) (amt : Int)
    (hamt : 0 ≤ amt) (h : BalancesNonneg users) :
    BalancesNonneg (creditUser users uid amt) := by
  intro u hm
  obtain ⟨u₀, hm₀, rfl⟩ := List.mem_map.mp hm
  have h₀ := h u₀ hm₀
  split <;> simp <;> omega

theorem balancesNonneg_debitUser (users : List User) (uid : String) (amt : Int)
    (u₀ : User) (hfind : users.find? (fun x => x.id == uid) = some u₀)
    (hle : amt ≤ u₀.balance) (hnodup : UsersNodup users) (h : BalancesNonneg users) :
    BalancesNonneg (debitUser users uid amt) := by
  intro u hm
  obtain ⟨u₁, hm₁, rfl⟩ := List.mem_map.mp hm
  by_cases hid : (u₁.id == uid) = true
  · rw [if_pos hid]
    have hu₀mem : u₀ ∈ users := List.mem_of_find?_eq_some hfind
    have hu₀id : u₀.id = uid := by
      have h9 := List.find?_some hfind
      simpa using h9
    have hu₁id : u₁.id = uid := by simpa using hid
    have heq : u₁ = u₀ :=
      List.inj_on_of_nodup_map hnodup hm₁ hu₀mem (by rw [hu₀id, hu₁id])
    dsimp only
    rw [heq]
    omega
  · rw [if_neg hid]
    exact h u₁ hm₁

theorem balancesNonneg_foldl_credit (others : List Hold) (users : List User)
    (hamts : ∀ h ∈ others, 0 ≤ h.amount) (h : BalancesNonneg users) :
    BalancesNonneg (others.foldl (fun us h => creditUser us h.userId h.amount) users) := by
  induction others generalizing users with
  | nil => exact h
  | cons hd tl ih =>
    exact ih (creditUser users hd.userId hd.amount)
      (fun x hx => hamts x (List.mem_cons_of_mem _ hx))
      (balancesNonneg_creditUser users hd.userId hd.amount
        (hamts hd (List.mem_cons_self _ _)) h)

theorem usersNodup_foldl_credit (others : List Hold) (users : List User)
    (h : UsersNodup users) :
    UsersNodup (others.foldl (fun us h => creditUser us h.userId h.amount) users) := by
  induction others generalizing users with
  | nil => exact h
  | cons hd tl ih =>
    exact ih (creditUser users hd.userId hd.amount)
      (usersNodup_creditUser users hd.userId hd.amount h)

/-- Membership in a first-match settlement update comes from the original
list, possibly through the update function. -/
theorem mem_updateFirstSettlement (l : List Settlement) (aid : String)
    (f : Settlement → Settlement) (st : Settlement)
    (hm : st ∈ updateFirstSettlement l aid f) :
    st ∈ l ∨ ∃ st₀ ∈ l, st = f st₀ := by
  induction l with
  | nil => cases hm
  | cons hd tl ih =>
    unfold updateFirstSettlement at hm
    by_cases hhd : (hd.auctionId == aid) = true
    · rw [if_pos hhd] at hm
      rcases List.mem_cons.mp hm with hm | hm
      · exact Or.inr ⟨hd, List.mem_cons_self _ _, hm⟩
      · exact Or.inl (List.mem_cons_of_mem _ hm)
    · rw [if_neg hhd] at hm
      rcases List.mem_cons.mp hm with hm | hm
      · exact Or.inl (by rw [hm]; exact List.mem_cons_self _ _)
      · rcases ih hm with h | ⟨st₀, hst₀, heq⟩
        · exact Or.inl (List.mem_cons_of_mem _ h)
        · exact Or.inr ⟨st₀, List.mem_cons_of_mem _ hst₀, heq⟩

theorem moneyInv_of_fields (s s' : State)
    (hu : s'.users = s.users) (hh : s'.holds = s.holds)
    (hst : s'.settlements = s.settlements) (ha : s'.auctions = s.auctions)
    (h : MoneyInv s) : MoneyInv s' := by
  unfold MoneyInv at h ⊢
  rw [hu, hh, hst, ha]
  exact h

theorem settlementAmounts_updateFirst (l : List Settlement) (aid : String)
    (f : Settlement → Settlement) (hf : ∀ x, (f x).amount = x.amount)
    (h : ∀ st ∈ l, 0 ≤ st.amount) :
    ∀ st ∈ updateFirstSettlement l aid f, 0 ≤ st.amount := by
  intro st hm
  rcases mem_updateFirstSettlement l aid f st hm with hm | ⟨st₀, hst₀, rfl⟩
  · exact h st hm
  · rw [hf st₀]
    exact h st₀ hst₀

theorem holdAmounts_map (l : List Hold) (g : Hold → Hold)
    (hg : ∀ h, (g h).amount = h.amount) (h : ∀ x ∈ l, 0 ≤ x.amount) :
    ∀ x ∈ l.map g, 0 ≤ x.amount := by
  intro x hm
  obtain ⟨x₀, hx₀, rfl⟩ := List.mem_map.mp hm
  rw [hg]
  exact h x₀ hx₀

theorem moneyInv_settle (s1 : State) (st : Settlement) (aid : String) (b : Bool)
    (hm1 : MoneyInv s1) (hamt : 0 ≤ st.amount) :
    MoneyInv (settleIfBothApproved s1 st aid b).2 := by
  obtain ⟨hnd, hbal, hha, hsa, hax⟩ := hm1
  cases b
  · exact ⟨hnd, hbal, hha, hsa, hax⟩
  · unfold settleIfBothApproved
    rw [if_pos rfl]
    refine ⟨usersNodup_creditUser _ _ _ hnd,
      balancesNonneg_creditUser _ _ _ hamt hbal,
      holdAmounts_map _ _ (fun h => by split <;> rfl) hha,
      settlementAmounts_updateFirst _ _ _ (fun x => rfl) hsa,
      hax⟩

/-- Operation `ApproveSettlement` preserves the money invariant. -/
theorem moneyInv_approve (s : State) (now : Int) (c aid : String) (hinv : MoneyInv s) :
    MoneyInv (approveSettlement s now c aid).2 := by
  obtain ⟨hnd, hbal, hha, hsa, hax⟩ := hinv
  cases hfs : findSettlement s aid with
  | none =>
    have hst : (approveSettlement s now c aid).2 = s := by simp [approveSettlement, hfs]
    rw [hst]; exact ⟨hnd, hbal, hha, hsa, hax⟩
  | some st =>
    have hstmem : st ∈ s.settlements := List.mem_of_find?_eq_some hfs
    have hamt : 0 ≤ st.amount := hsa st hstmem
    simp only [approveSettlement, hfs]
    by_cases h1 : st.status = SettlementStatus.completed
    · rw [if_pos h1]; exact ⟨hnd, hbal, hha, hsa, hax⟩
    · rw [if_neg h1]
      by_cases h2 : c = st.winnerId
      · rw [if_pos h2]
        by_cases h3 : st.winnerApprovedAt ≠ none
        · rw [if_pos h3]; exact ⟨hnd, hbal, hha, hsa, hax⟩
        · rw [if_neg h3]
          exact moneyInv_settle _ st aid _
            ⟨hnd, hbal, hha,
              settlementAmounts_updateFirst _ _ _ (fun x => rfl) hsa, hax⟩ hamt
      · rw [if_neg h2]
        by_cases h4 : c = st.sellerId
        · rw [if_pos h4]
          by_cases h5 : st.sellerApprovedAt ≠ none
          · rw [if_pos h5]; exact ⟨hnd, hbal, hha, hsa, hax⟩
          · rw [if_neg h5]
            exact moneyInv_settle _ st aid _
              ⟨hnd, hbal, hha,
                settlementAmounts_updateFirst _ _ _ (fun x => rfl) hsa, hax⟩ hamt
        · rw [if_neg h4]; exact ⟨hnd, hbal, hha, hsa, hax⟩

/-- Operation `Deposit` preserves the money invariant (the only balance change is a
credit of the positive amount). -/
theorem moneyInv_deposit (s : State) (u : String) (amt : Int) (r g : String)
    (hinv : MoneyInv s) : MoneyInv (deposit s u amt r g).2 := by
  obtain ⟨hnd, hbal, hha, hsa, hax⟩ := hinv
  by_cases h0 : amt ≤ 0
  · have hst : (deposit s u amt r g).2 = s := by simp [deposit, h0]
    rw [hst]; exact ⟨hnd, hbal, hha, hsa, hax⟩
  · by_cases hany : (s.journal.any (fun e =>
        e.reference == some (if r = "" then g else r) && e.kind == TxKind.deposit)) = true
    · have hst : (deposit s u amt r g).2 = s := by
        simp only [deposit]
        rw [if_neg h0, if_pos hany]
      rw [hst]; exact ⟨hnd, hbal, hha, hsa, hax⟩
    · have hst : (deposit s u amt r g).2 =
          { s with
            users := creditUser s.users u amt,
            journal := (s.journal ++
              [⟨u, amt, .deposit, .completed, some (if r = "" then g else r)⟩]) } := by
        simp only [deposit]
        rw [if_neg h0, if_neg hany]
      rw [hst]
      exact ⟨usersNodup_creditUser _ _ _ hnd,
        balancesNonneg_creditUser _ _ _ (by omega) hbal, hha, hsa, hax⟩

/-- Operation `Withdraw` preserves the money invariant (the debit is guarded by the
balance check under the row lock). -/
theorem moneyInv_withdraw (s : State) (u : String) (amt : Int) (upi : String)
    (hinv : MoneyInv s) : MoneyInv (withdraw s u amt upi).2 := by
  obtain ⟨hnd, hbal, hha, hsa, hax⟩ := hinv
  by_cases h0 : amt ≤ 0
  · have hst : (withdraw s u amt upi).2 = s := by simp [withdraw, h0]
    rw [hst]; exact ⟨hnd, hbal, hha, hsa, hax⟩
  · cases hfu : findUser s u with
    | none =>
      have hst : (withdraw s u amt upi).2 = s := by simp [withdraw, h0, hfu]
      rw [hst]; exact ⟨hnd, hbal, hha, hsa, hax⟩
    | some u₀ =>
      by_cases hb : u₀.balance < amt
      · have hst : (withdraw s u amt upi).2 = s := by simp [withdraw, h0, hfu, hb]
        rw [hst]; exact ⟨hnd, hbal, hha, hsa, hax⟩
      · have hst : (withdraw s u amt upi).2 =
            { s with
              users := debitUser s.users u amt,
              journal := (s.journal ++ [⟨u, amt, .withdraw, .completed, some upi⟩]) } := by
          simp [withdraw, h0, hfu, hb]
        rw [hst]
        exact ⟨usersNodup_debitUser _ _ _ hnd,
          balancesNonneg_debitUser s.users u amt u₀ hfu (by omega) hnd hbal,
          hha, hsa, hax⟩

/-- Advancing the auction row keeps "highest bidder implies non-negative
high bid" when the new bid amount is positive. -/
theorem auctionNonneg_advance (auctions : List Auction) (aid userId : String)
    (amount : Int) (hpos : 0 ≤ amount)
    (hax : ∀ a ∈ auctions, a.highestBidderId ≠ none → 0 ≤ a.currentHighBid) :
    ∀ x ∈ auctions.map (advanceAuction aid userId amount),
      x.highestBidderId ≠ none → 0 ≤ x.currentHighBid := by
  intro x hm
  obtain ⟨x₀, hx₀, rfl⟩ := List.mem_map.mp hm
  by_cases hid : (x₀.id == aid) = true
  · have hx : advanceAuction aid userId amount x₀ =
        { x₀ with currentHighBid := amount, highestBidderId := some userId } := by
      unfold advanceAuction
      rw [if_pos hid]
    rw [hx]
    intro _
    exact hpos
  · have hx : advanceAuction aid userId amount x₀ = x₀ := by
      unfold advanceAuction
      rw [if_neg hid]
    rw [hx]
    exact hax x₀ hx₀

/-- Operation `PlaceBid` preserves the money invariant. -/
theorem moneyInv_placeBid (s : State) (now : Int) (userId aid : String) (amount : Int)
    (hinv : MoneyInv s) : MoneyInv (placeBid s now userId aid amount).2 := by
  obtain ⟨hnd, hbal, hha, hsa, hax⟩ := hinv
  by_cases h0 : amount ≤ 0
  · have hst : (placeBid s now userId aid amount).2 = s := by simp [placeBid, h0]
    rw [hst]; exact ⟨hnd, hbal, hha, hsa, hax⟩
  · cases hfa : findAuction s aid with
    | none =>
      have hst : (placeBid s now userId aid amount).2 = s := by simp [placeBid, h0, hfa]
      rw [hst]; exact ⟨hnd, hbal, hha, hsa, hax⟩
    | some a =>
      have hfa' : s.auctions.find? (fun x => x.id == aid) = some a := hfa
      have hamem : a ∈ s.auctions := List.mem_of_find?_eq_some hfa'
      by_cases hcl : (a.status ≠ AuctionStatus.active ∨ a.endTime < now)
      · have hst : (placeBid s now userId aid amount).2 = s := by
          simp [placeBid, h0, hfa, hcl]
        rw [hst]; exact ⟨hnd, hbal, hha, hsa, hax⟩
      · by_cases hlow : amount ≤ a.currentHighBid
        · have hst : (placeBid s now userId aid amount).2 = s := by
            simp [placeBid, h0, hfa, hcl, hlow]
          rw [hst]; exact ⟨hnd, hbal, hha, hsa, hax⟩
        · cases hfu : findUser s userId with
          | none =>
            have hst : (placeBid s now userId aid amount).2 = s := by
              simp [placeBid, h0, hfa, hcl, hlow, hfu]
            rw [hst]; exact ⟨hnd, hbal, hha, hsa, hax⟩
          | some u =>
            by_cases hbalc : u.balance < amount
            · have hst : (placeBid s now userId aid amount).2 = s := by
                simp [placeBid, h0, hfa, hcl, hlow, hfu, hbalc]
              rw [hst]; exact ⟨hnd, hbal, hha, hsa, hax⟩
            · have hfu' : s.users.find? (fun x => x.id == userId) = some u := hfu
              have hle : amount ≤ u.balance := by omega
              have hpos : 0 ≤ amount := by omega
              have hax' := auctionNonneg_advance s.auctions aid userId amount hpos hax
              have hholds : ∀ x ∈ s.holds ++ [(⟨aid, userId, amount, HoldStatus.soft⟩ : Hold)],
                  0 ≤ x.amount := by
                intro x hm
                rcases List.mem_append.mp hm with hm | hm
                · exact hha x hm
                · have hx : x = ⟨aid, userId, amount, HoldStatus.soft⟩ := by simpa using hm
                  rw [hx]
                  exact hpos
              have hnoRel : ∀ hprev : a.highestBidderId = none ∨
                  a.highestBidderId = some userId,
                  MoneyInv (placeBid s now userId aid amount).2 := by
                intro hprev
                rw [placeBid_commit_noRelease s now userId aid amount a u hfa h0 hcl hlow
                  hfu hbalc hprev]
                exact ⟨usersNodup_debitUser _ _ _ hnd,
                  balancesNonneg_debitUser s.users userId amount u hfu' hle hnd hbal,
                  hholds, hsa, hax'⟩
              cases hp : a.highestBidderId with
              | none => exact hnoRel (Or.inl hp)
              | some prev =>
                by_cases hpe : prev = userId
                · rw [hpe] at hp
                  exact hnoRel (Or.inr hp)
                · have hhigh0 : 0 ≤ a.currentHighBid := by
                    apply hax a hamem
                    rw [hp]
                    intro hc
                    exact Option.noConfusion hc
                  rw [placeBid_commit_release s now userId aid amount a u prev hfa h0 hcl
                    hlow hfu hbalc hp hpe]
                  have huid : u.id = userId := by
                    have h9 := List.find?_some hfu'
                    simpa using h9
                  have hfu2 : (creditUser s.users prev a.currentHighBid).find?
                      (fun x => x.id == userId) = some u := by
                    unfold creditUser
                    rw [find?_map_of_pred_eq s.users _ _ (fun x => by split <;> rfl), hfu']
                    have hne : ¬ (u.id == prev) = true := by
                      rw [huid]
                      simpa using fun hc => hpe hc.symm
                    simp [hne]
                    intro hc
                    exact absurd hc (by simpa using hne)
                  refine ⟨usersNodup_debitUser _ _ _ (usersNodup_creditUser _ _ _ hnd),
                    balancesNonneg_debitUser _ userId amount u hfu2 hle
                      (usersNodup_creditUser _ _ _ hnd)
                      (balancesNonneg_creditUser _ _ _ hhigh0 hbal),
                    ?_, hsa, hax'⟩
                  intro x hm
                  rcases List.mem_append.mp hm with hm | hm
                  · exact holdAmounts_map s.holds
                      (fun h => if h.auctionId == aid && h.userId == prev &&
                          h.status == HoldStatus.soft then
                        { h with status := HoldStatus.released }
                      else h)
                      (fun h => by dsimp only; split <;> rfl) hha x hm
                  · have hx : x = ⟨aid, userId, amount, HoldStatus.soft⟩ := by simpa using hm
                    rw [hx]
                    exact hpos

/-- Marking an auction ENDED changes neither its high bid nor its highest
bidder, so the high-bid sign condition carries over. -/
theorem auctionNonneg_ended (auctions : List Auction) (aid : String)
    (hax : ∀ a ∈ auctions, a.highestBidderId ≠ none → 0 ≤ a.currentHighBid) :
    ∀ x ∈ auctions.map (fun x =>
        if x.id == aid then { x with status := AuctionStatus.ended } else x),
      x.highestBidderId ≠ none → 0 ≤ x.currentHighBid := by
  intro x hm
  obtain ⟨x₀, hx₀, rfl⟩ := List.mem_map.mp hm
  by_cases hid : (x₀.id == aid) = true
  · rw [if_pos hid]
    exact hax x₀ hx₀
  · rw [if_neg hid]
    exact hax x₀ hx₀

/-- The lazy finalizer preserves the money invariant. -/
theorem moneyInv_finalize (s : State) (now : Int) (aid : String) (hinv : MoneyInv s) :
    MoneyInv (endAuctionIfExpired s now aid).2 := by
  obtain ⟨hnd, hbal, hha, hsa, hax⟩ := hinv
  cases hfa : findAuction s aid with
  | none =>
    have hst : (endAuctionIfExpired s now aid).2 = s := by simp [endAuctionIfExpired, hfa]
    rw [hst]; exact ⟨hnd, hbal, hha, hsa, hax⟩
  | some a =>
    have hfa' : s.auctions.find? (fun x => x.id == aid) = some a := hfa
    have hamem : a ∈ s.auctions := List.mem_of_find?_eq_some hfa'
    by_cases hcond : (a.status ≠ AuctionStatus.active ∨ ¬ a.endTime < now)
    · have hst : (endAuctionIfExpired s now aid).2 = s := by
        simp only [endAuctionIfExpired, hfa]
        rw [if_pos hcond]
      rw [hst]; exact ⟨hnd, hbal, hha, hsa, hax⟩
    · have hact : a.status = AuctionStatus.active := not_not.mp (not_or.mp hcond).1
      have htime : a.endTime < now := not_not.mp (not_or.mp hcond).2
      cases hp : a.highestBidderId with
      | none =>
        have hst : (endAuctionIfExpired s now aid).2 =
            { s with auctions := s.auctions.map (fun x =>
                if x.id == aid then { x with status := .ended } else x) } := by
          simp [endAuctionIfExpired, hfa, hact, htime, hp]
        rw [hst]
        exact ⟨hnd, hbal, hha, hsa, auctionNonneg_ended s.auctions aid hax⟩
      | some w =>
        have hhigh0 : 0 ≤ a.currentHighBid := by
          apply hax a hamem
          rw [hp]
          intro hc
          exact Option.noConfusion hc
        have hamts : ∀ h ∈ otherSoftHolds (s.holds.map (fun h =>
            if h.auctionId == aid && h.userId == w && h.status == HoldStatus.soft then
              { h with status := .hard }
            else h)) aid w, 0 ≤ h.amount := by
          intro h hm
          unfold otherSoftHolds at hm
          have hm2 := (List.mem_filter.mp hm).1
          obtain ⟨h₀, hh₀, rfl⟩ := List.mem_map.mp hm2
          have ha := hha h₀ hh₀
          split <;> exact ha
        have hholds2 : ∀ x ∈ (s.holds.map (fun h =>
            if h.auctionId == aid && h.userId == w && h.status == HoldStatus.soft then
              { h with status := .hard }
            else h)).map (fun h =>
            if h.auctionId == aid && h.status == HoldStatus.soft && h.userId != w then
              { h with status := .released }
            else h), 0 ≤ x.amount := by
          apply holdAmounts_map _ _ (fun h => by split <;> rfl)
          exact holdAmounts_map _ _ (fun h => by split <;> rfl) hha
        simp only [endAuctionIfExpired, hfa]
        rw [if_neg hcond]
        simp only [hp]
        split
        · exact ⟨usersNodup_foldl_credit _ _ hnd,
            balancesNonneg_foldl_credit _ _ hamts hbal,
            hholds2, hsa, auctionNonneg_ended s.auctions aid hax⟩
        · refine ⟨usersNodup_foldl_credit _ _ hnd,
            balancesNonneg_foldl_credit _ _ hamts hbal,
            hholds2, ?_, auctionNonneg_ended s.auctions aid hax⟩
          intro st hm
          rcases List.mem_append.mp hm with hm | hm
          · exact hsa st hm
          · have hst : st = ⟨aid, w, a.sellerId, a.currentHighBid, none, none,
                SettlementStatus.pending⟩ := by simpa using hm
            rw [hst]
            exact hhigh0

/-- C8: every wallet balance stays non-negative across every operation
(committed or rolled back): each debit — the bid deduction and the
withdrawal — is guarded by a balance-sufficiency check against the row that
the user lock returned, and every other balance change is a credit of a
non-negative amount.  The inductive hypothesis `MoneyInv` carries the schema
facts this relies on: the users primary key, and non-negative hold,
settlement and current-high-bid amounts. -/
theorem moneyInv_preserved (s : State) (op : Op) (hinv : MoneyInv s) :
    MoneyInv (applyOp s op) ∧ BalancesNonneg (applyOp s op).users := by
  have hmain : MoneyInv (applyOp s op) := by
    cases op with
    | bid now u aid amt => exact moneyInv_placeBid s now u aid amt hinv
    | finalize now aid => exact moneyInv_finalize s now aid hinv
    | approve now c aid => exact moneyInv_approve s now c aid hinv
    | deposit u amt r g => exact moneyInv_deposit s u amt r g hinv
    | withdraw u amt upi => exact moneyInv_withdraw s u amt upi hinv
  exact ⟨hmain, hmain.2.1⟩

theorem moneyInv_preserved_witness :
    BalancesNonneg (applyOp stateC8w (Op.withdraw "u" 400 "upi")).users :=
  (moneyInv_preserved stateC8w (Op.withdraw "u" 400 "upi")
    (by
      unfold MoneyInv UsersNodup BalancesNonneg
      refine ⟨?_, ?_, ?_, ?_, ?_⟩ <;> decide)).2

end OrangeCityMart
